import Mathlib

/-!
Verification of the audit/versioning core of the Toolvio backend.

The development shallowly embeds the audit subsystem of the repository:
the Version Ledger (`logChange`, `getLatestVersion`, `getAuditHistory`),
the State Reconstructor (`getDocumentAtVersion`), the Revert Engine
(`revertToVersion`), the CRUD call sites (`createRecord`, `updateRecord`,
`deleteRecord`), the HTTP controllers that validate version numbers, and
the Dependency Propagator (`findDependentRecords`, `propagateChanges`).

Document states are association lists of field name to JSON-like value;
the persistent stores (the audit-log collection and the dynamic
collections) are explicit lists threaded through each operation, and
fallible storage writes are modelled by boolean outcome flags carried in
the world state.
-/

/-- JSON-like values, mirroring the plain data JavaScript objects the
service manipulates. -/
inductive Value where
  | vnull : Value
  | vbool : Bool → Value
  | vnum : Int → Value
  | vstr : String → Value
  | varr : List Value → Value
  | vobj : List (String × Value) → Value

mutual

/-- Model of `JSON.stringify` on a value (string escaping elided: field values in
the model are plain identifiers). Used only for equality comparison, as
in the source. -/
def Value.stringify : Value → String
  | .vnull => "null"
  | .vbool b => if b then "true" else "false"
  | .vnum n => toString n
  | .vstr s => "\x22" ++ s ++ "\x22"
  | .varr xs => "[" ++ Value.stringifyList xs ++ "]"
  | .vobj fs => "\x7b" ++ Value.stringifyFields fs ++ "\x7d"

/-- Comma-separated serialization of an array body. -/
def Value.stringifyList : List Value → String
  | [] => ""
  | [v] => v.stringify
  | v :: rest => v.stringify ++ "," ++ Value.stringifyList rest

/-- Comma-separated serialization of an object body. -/
def Value.stringifyFields : List (String × Value) → String
  | [] => ""
  | [(k, v)] => "\x22" ++ k ++ "\x22:" ++ v.stringify
  | (k, v) :: rest => "\x22" ++ k ++ "\x22:" ++ v.stringify ++ "," ++ Value.stringifyFields rest

end

/-- A document state: a JavaScript object, as an association list from
field name to value. -/
abbrev State := List (String × Value)

/-- Field access `state[field]`: `some v` when present, `none` for the
JavaScript `undefined`. -/
def lookupField (s : State) (k : String) : Option Value :=
  (List.find? (fun p => p.fst == k) s).map Prod.snd

/-- Set a field, replacing an existing binding in place or appending. -/
def setField (s : State) (k : String) (v : Value) : State :=
  match s with
  | [] => [(k, v)]
  | (k0, v0) :: rest =>
    if k0 == k then (k0, v) :: rest else (k0, v0) :: setField rest k v

/-- Apply a `$set`-style update object to a document, as
`findByIdAndUpdate` / `findOneAndUpdate` do: every field of the update
is written, all other fields are kept. -/
def applyUpdate (doc : State) (updates : State) : State :=
  updates.foldl (fun acc p => setField acc p.fst p.snd) doc

/-- The keys of a state, in order. -/
def stateKeys (s : State) : List String :=
  s.map Prod.fst

/-- The system fields skipped by the diff and stripped before a revert:
`['_id', '__v', 'createdAt', 'updatedAt', '_schemaName']`. -/
def systemFields : List String :=
  ["_id", "__v", "createdAt", "updatedAt", "_schemaName"]

/-- Remove the system fields from a target state before applying it
(the `delete revertData.*` block of `revertToVersion`). -/
def stripSystemFields (s : State) : State :=
  s.filter (fun p => !systemFields.contains p.fst)

/-- De-duplicate, keeping the first occurrence of each key — the effect
of `new Set([...keys1, ...keys2])` iteration order in JavaScript. -/
def dedupKeepFirst : List String → List String
  | [] => []
  | x :: xs => x :: (dedupKeepFirst xs).filter (fun y => y != x)

/-- Model of the comparison `JSON.stringify(oldValue) !== JSON.stringify(newValue)`, lifted to
possibly-absent values: `JSON.stringify(undefined)` is `undefined`, so
two absent values compare equal and an absent value differs from any
present one. -/
def jsonDiffers (a b : Option Value) : Bool :=
  a.map Value.stringify != b.map Value.stringify

/-- One element of `changedFields`. -/
structure ChangedField where
  field : String
  oldValue : Option Value
  newValue : Option Value

/-- The loop body of `calculateChangedFields`: skip system fields, and
report a field iff its serialized values differ. -/
def diffEntry (previousState currentState : State) (field : String) : Option ChangedField :=
  if systemFields.contains field then none
  else
    let oldValue := lookupField previousState field
    let newValue := lookupField currentState field
    if jsonDiffers oldValue newValue then
      some { field := field, oldValue := oldValue, newValue := newValue }
    else none

/-- Model of `AuditService.calculateChangedFields`: key union of both states,
system fields skipped, a field reported iff its serialized values
differ. -/
def calculateChangedFields (previousState currentState : State) : List ChangedField :=
  (dedupKeepFirst (stateKeys previousState ++ stateKeys currentState)).filterMap
    (diffEntry previousState currentState)

/-- A persisted `AuditLog` document. `entryId` models the Mongo `_id`;
`timestamp` is an abstract instant (`new Date()` at save time). -/
structure AuditEntry where
  entryId : Nat
  documentId : String
  schemaName : String
  collectionName : String
  operation : String
  previousState : Option State
  currentState : Option State
  changedFields : List ChangedField
  version : Int
  timestamp : Int
  canRevert : Bool
  revertedFrom : Option Nat
  metadata : State

/-- The argument object of `AuditService.logChange`. -/
structure AuditData where
  documentId : String
  schemaName : String
  collectionName : String
  operation : String
  previousState : Option State
  currentState : Option State
  userId : Option String
  userAgent : Option String
  ipAddress : Option String
  metadata : State

/-- A persisted audit-log collection, in insertion order. -/
abbrev AuditStore := List AuditEntry

/-- The entries of the store for one `(documentId, schemaName)` pair. -/
def matchingEntries (store : AuditStore) (documentId schemaName : String) : List AuditEntry :=
  store.filter (fun e => e.documentId == documentId && e.schemaName == schemaName)

/-- Model of `AuditService.getLatestVersion`: highest `version` among the entries
for `(documentId, schemaName)`, `0` when none exists. -/
def getLatestVersion (store : AuditStore) (documentId schemaName : String) : Int :=
  (matchingEntries store documentId schemaName).foldl (fun acc e => max acc e.version) 0

/-- Model of `AuditService.logChange` (successful save path): assign
`version = getLatestVersion + 1`, compute `changedFields` for updates
carrying both states, and append the entry. Returns the saved entry and
the grown store. -/
def logChange (store : AuditStore) (d : AuditData) (now : Int) (eid : Nat) :
    AuditEntry × AuditStore :=
  let version := getLatestVersion store d.documentId d.schemaName + 1
  let changedFields :=
    match d.previousState, d.currentState with
    | some p, some c => if d.operation == "update" then calculateChangedFields p c else []
    | _, _ => []
  let entry : AuditEntry :=
    { entryId := eid
      documentId := d.documentId
      schemaName := d.schemaName
      collectionName := d.collectionName
      operation := d.operation
      previousState := d.previousState
      currentState := d.currentState
      changedFields := changedFields
      version := version
      timestamp := now
      canRevert := true
      revertedFrom := none
      metadata := d.metadata }
  (entry, store ++ [entry])

/-- Model of `AuditService.logChange` with its fallible `auditLog.save()`: when
the storage write fails the service rethrows
`Failed to log audit change: ...` and nothing is persisted. -/
def logChangeE (saveOk : Bool) (store : AuditStore) (d : AuditData) (now : Int) (eid : Nat) :
    Except String (AuditEntry × AuditStore) :=
  if saveOk then .ok (logChange store d now eid)
  else .error "Failed to log audit change: save failed"

/-- Serialized sequence of `logChange` calls, timestamps and entry ids
advancing between calls. -/
def runLogChanges (store : AuditStore) (calls : List AuditData) (now : Int) (eid : Nat) :
    AuditStore :=
  match calls with
  | [] => store
  | c :: rest => runLogChanges (logChange store c now eid).snd rest (now + 1) (eid + 1)

/-- The versions stored for one `(documentId, schemaName)` pair, in
insertion order. -/
def matchingVersions (store : AuditStore) (documentId schemaName : String) : List Int :=
  (matchingEntries store documentId schemaName).map (fun e => e.version)

/-- The version list `[1, 2, ..., k]`. -/
def versionsUpTo (k : Nat) : List Int :=
  (List.range k).map (fun i => Int.ofNat i + 1)

/-- A minimal `logChange` payload used for concrete instantiations. -/
def exCall : AuditData :=
  { documentId := "d"
    schemaName := "s"
    collectionName := "col"
    operation := "create"
    previousState := none
    currentState := some [("title", .vstr "t")]
    userId := none
    userAgent := none
    ipAddress := none
    metadata := [] }

/-- The result shape of `AuditService.getDocumentAtVersion`. -/
structure VersionView where
  version : Int
  timestamp : Int
  operation : String
  state : Option State
  changedFields : List ChangedField
  metadata : State

/-- Model of `AuditService.getDocumentAtVersion`: `findOne` on
`(documentId, schemaName, version)`; `null` when absent. -/
def getDocumentAtVersion (store : AuditStore) (documentId schemaName : String)
    (version : Int) : Option VersionView :=
  match store.find? (fun e =>
      e.documentId == documentId && e.schemaName == schemaName && e.version == version) with
  | none => none
  | some e =>
    some { version := e.version
           timestamp := e.timestamp
           operation := e.operation
           state := e.currentState
           changedFields := e.changedFields
           metadata := e.metadata }

/-- Pagination metadata returned with every history page. -/
structure Pagination where
  currentPage : Nat
  totalPages : Nat
  totalRecords : Nat
  hasNextPage : Bool
  hasPrevPage : Bool
  limit : Nat

/-- The result shape of `AuditService.getAuditHistory`. -/
structure AuditHistoryResult where
  auditLogs : List AuditEntry
  pagination : Pagination

/-- Comparison used by the Mongo sort `{ timestamp: -1 }`: later
timestamps first. -/
def tsDescOrder (a b : AuditEntry) : Prop :=
  b.timestamp ≤ a.timestamp

instance : DecidableRel tsDescOrder := fun a b => Int.decLe b.timestamp a.timestamp

/-- The Mongo query object built by `getAuditHistory`: document and
schema, optional operation filter, optional timestamp range. -/
def historyQuery (documentId schemaName : String) (operationFilter : Option String)
    (startDate endDate : Option Int) (e : AuditEntry) : Bool :=
  e.documentId == documentId && e.schemaName == schemaName &&
  (match operationFilter with
   | none => true
   | some op => e.operation == op) &&
  (match startDate with
   | none => true
   | some sd => sd ≤ e.timestamp) &&
  (match endDate with
   | none => true
   | some ed => e.timestamp ≤ ed)

/-- Model of `AuditService.getAuditHistory`: filter by document, schema and the
optional operation/date filters, sort by `timestamp` descending, then
page with `skip = (page-1)*limit`. `Math.ceil(total/limit)` on
non-negative counts is ceiling division. -/
def getAuditHistory (store : AuditStore) (documentId schemaName : String)
    (page limit : Nat) (operationFilter : Option String)
    (startDate endDate : Option Int) : AuditHistoryResult :=
  let query := store.filter (historyQuery documentId schemaName operationFilter startDate endDate)
  let total := query.length
  let totalPages := (total + limit - 1) / limit
  let sorted := query.insertionSort tsDescOrder
  let skip := (page - 1) * limit
  { auditLogs := (sorted.drop skip).take limit
    pagination :=
      { currentPage := page
        totalPages := totalPages
        totalRecords := total
        hasNextPage := decide (page < totalPages)
        hasPrevPage := decide (1 < page)
        limit := limit } }

/-- A stored entry used in concrete scenarios: version 1, timestamp 10. -/
def exEntryA : AuditEntry :=
  { entryId := 1
    documentId := "d"
    schemaName := "s"
    collectionName := "col"
    operation := "create"
    previousState := none
    currentState := some [("title", .vstr "t")]
    changedFields := []
    version := 1
    timestamp := 10
    canRevert := true
    revertedFrom := none
    metadata := [] }

/-- A second stored entry for the same document: version 2 but an
EARLIER timestamp (the racing-clock situation the data model allows). -/
def exEntryB : AuditEntry :=
  { exEntryA with
    entryId := 2
    operation := "update"
    previousState := some [("title", .vstr "t")]
    currentState := some [("title", .vstr "u")]
    version := 2
    timestamp := 5 }

/-- A dynamic collection handle (`CollectionGenerator.getDynamicModel`):
physical collection name plus the stored documents, keyed by id. -/
structure DynModel where
  collectionName : String
  docs : List (String × State)

/-- Registry of dynamic models by schema name. -/
abbrev Models := List (String × DynModel)

/-- Model lookup by schema name (`getDynamicModel`). -/
def findModel (ms : Models) (schemaName : String) : Option DynModel :=
  (ms.find? (fun p => p.fst == schemaName)).map Prod.snd

/-- Replace one document inside one model of the registry. -/
def setDoc (ms : Models) (schemaName docId : String) (st : State) : Models :=
  ms.map (fun p =>
    if p.fst == schemaName then
      (p.fst, { p.snd with docs := p.snd.docs.map (fun q => if q.fst == docId then (q.fst, st) else q) })
    else p)

/-- Read one document from the registry. -/
def getDoc (ms : Models) (schemaName docId : String) : Option State :=
  match findModel ms schemaName with
  | none => none
  | some m => (m.docs.find? (fun q => q.fst == docId)).map Prod.snd

/-- Actor attribution forwarded to the ledger. -/
structure ActorContext where
  userId : Option String
  userAgent : Option String
  ipAddress : Option String

/-- The world `AuditService.revertToVersion` runs in: the audit store,
the dynamic model registry, the clock and id supply, and the outcome of
the two fallible storage writes (the `findByIdAndUpdate` apply step and
the audit `save`). -/
structure AuditWorld where
  auditStore : AuditStore
  models : Models
  now : Int
  nextEntryId : Nat
  applyOk : Bool
  saveOk : Bool

/-- Options argument of `revertToVersion`. -/
structure RevertOptions where
  actor : ActorContext
  reason : Option String

/-- The success result of `revertToVersion`. -/
structure RevertResult where
  document : State
  auditLog : AuditEntry
  revertedFromVersion : Int

/-- The `findOne` locating the revert target entry. -/
def findTargetEntry (w : AuditWorld) (documentId schemaName : String) (v : Int) :
    Option AuditEntry :=
  w.auditStore.find? (fun e =>
    e.documentId == documentId && e.schemaName == schemaName && e.version == v)

/-- The `findById` locating the live document inside a model. -/
def findLiveDoc (model : DynModel) (documentId : String) : Option State :=
  (model.docs.find? (fun q => q.fst == documentId)).map Prod.snd

/-- Does `revertToVersion` fail before or during the apply step? True
when the target entry is absent, not revertable or state-less, when the
model or the live document is missing, or when the apply write itself
fails. -/
def revertPreApplyFailure (w : AuditWorld) (documentId schemaName : String)
    (targetVersion : Int) : Bool :=
  match findTargetEntry w documentId schemaName targetVersion with
  | none => true
  | some target =>
    if !target.canRevert then true
    else
      match target.currentState with
      | none => true
      | some _ =>
        match findModel w.models schemaName with
        | none => true
        | some model =>
          match findLiveDoc model documentId with
          | none => true
          | some _ => !w.applyOk

/-- The state written by the apply step: the target state with system
fields stripped, plus a fresh `updatedAt`, `$set` over the live
document. -/
def revertedDocState (currentState targetState : State) (now : Int) : State :=
  applyUpdate currentState (stripSystemFields targetState ++ [("updatedAt", .vnum now)])

/-- The `logChange` payload built by `revertToVersion`. -/
def revertAuditData (documentId schemaName collectionName : String) (targetVersion : Int)
    (opts : RevertOptions) (previousState currentState : State) : AuditData :=
  { documentId := documentId
    schemaName := schemaName
    collectionName := collectionName
    operation := "update"
    previousState := some previousState
    currentState := some currentState
    userId := opts.actor.userId
    userAgent := opts.actor.userAgent
    ipAddress := opts.actor.ipAddress
    metadata :=
      [("isRevert", .vbool true),
       ("revertedToVersion", .vnum targetVersion),
       ("revertReason", .vstr (opts.reason.getD "Manual revert"))] }

/-- The one-time `revertedFrom` backfill: `findByIdAndUpdate` on the
audit collection by the new entry's own id. -/
def backfillRevertedFrom (store : AuditStore) (eid : Nat) (src : Nat) : AuditStore :=
  store.map (fun e => if e.entryId == eid then { e with revertedFrom := some src } else e)

/-- Model of `AuditService.revertToVersion`, step for step: find the target
entry, check `canRevert` and the presence of `currentState`, find the
model and the live document, strip system fields, apply the target
state as an update (stamping `updatedAt`), log the revert through
`logChange`, and backfill `revertedFrom` on the new entry. The world is
returned alongside the outcome: failures do not roll back already
performed writes. -/
def revertToVersion (w : AuditWorld) (documentId schemaName : String)
    (targetVersion : Int) (opts : RevertOptions) :
    Except String RevertResult × AuditWorld :=
  match findTargetEntry w documentId schemaName targetVersion with
  | none => (.error "Failed to revert document: version not found", w)
  | some target =>
    if !target.canRevert then
      (.error "Failed to revert document: version cannot be reverted", w)
    else
      match target.currentState with
      | none => (.error "Failed to revert document: no state available", w)
      | some targetState =>
        match findModel w.models schemaName with
        | none => (.error "Failed to revert document: dynamic model not found", w)
        | some model =>
          match findLiveDoc model documentId with
          | none => (.error "Failed to revert document: document not found", w)
          | some currentState =>
            if !w.applyOk then
              (.error "Failed to revert document: apply failed", w)
            else
              let newDocState := revertedDocState currentState targetState w.now
              let w1 : AuditWorld := { w with models := setDoc w.models schemaName documentId newDocState }
              let auditData := revertAuditData documentId schemaName model.collectionName
                targetVersion opts currentState newDocState
              match logChangeE w1.saveOk w1.auditStore auditData w1.now w1.nextEntryId with
              | .error msg => (.error ("Failed to revert document: " ++ msg), w1)
              | .ok (entry, store1) =>
                let w2 : AuditWorld :=
                  { w1 with
                    auditStore := backfillRevertedFrom store1 entry.entryId target.entryId
                    nextEntryId := w1.nextEntryId + 1 }
                (.ok { document := newDocState
                       auditLog := entry
                       revertedFromVersion := targetVersion }, w2)

/-- A concrete dynamic model holding the live document `d`. -/
def exModel : DynModel :=
  { collectionName := "col"
    docs := [("d", [("_id", .vstr "d"), ("title", .vstr "live"),
                    ("_schemaName", .vstr "s")])] }

/-- A concrete revert world: entry `exEntryA` stored, live document
present, both storage writes succeeding. -/
def exWorld : AuditWorld :=
  { auditStore := [exEntryA]
    models := [("s", exModel)]
    now := 50
    nextEntryId := 10
    applyOk := true
    saveOk := true }

/-- Concrete revert options with no actor and no reason. -/
def exOpts : RevertOptions :=
  { actor := { userId := none, userAgent := none, ipAddress := none }
    reason := none }

/-- The same revert world with the ledger save failing. -/
def exWorldSaveFail : AuditWorld :=
  { exWorld with saveOk := false }

/-- The Mongo filter `{ _id: recordId, _schemaName: schemaName }` used
by the CRUD service on update and delete. -/
def docMatches (recordId schemaName : String) (q : String × State) : Bool :=
  q.fst == recordId &&
    (match lookupField q.snd "_schemaName" with
     | some (.vstr s) => s == schemaName
     | _ => false)

/-- The world `DynamicCrudService` runs in. `validateOk` is the external
JSON Schema validator (out of scope, consumed as an oracle);
`auditSaveOk` is the outcome of the ledger write; `nextDocId` feeds the
ids the store assigns on insert. -/
structure CrudWorld where
  schemaNames : List String
  models : Models
  auditStore : AuditStore
  auditSaveOk : Bool
  validateOk : State → Bool
  now : Int
  nextEntryId : Nat
  nextDocId : Nat

/-- Attempt the ledger write of a CRUD operation and swallow a failure
(the `try { await AuditService.logChange(...) } catch (auditError) {
console.warn(...) }` block): the world only changes when the write
succeeded. -/
def tryLogChange (w : CrudWorld) (d : AuditData) : CrudWorld :=
  match logChangeE w.auditSaveOk w.auditStore d w.now w.nextEntryId with
  | .ok (_, store1) => { w with auditStore := store1, nextEntryId := w.nextEntryId + 1 }
  | .error _ => w

/-- Model of `DynamicCrudService.createRecord`: schema lookup, validation, model
lookup, tag `_schemaName`, save (the store assigns `_id`), then the
caught ledger write. Returns the saved record. -/
def createRecord (w : CrudWorld) (schemaName : String) (data : State) (ctx : ActorContext) :
    Except String State × CrudWorld :=
  if !w.schemaNames.contains schemaName then
    (.error "Schema not found", w)
  else if !w.validateOk data then
    (.error "Validation failed", w)
  else
    match findModel w.models schemaName with
    | none => (.error "Dynamic model not found", w)
    | some model =>
      let newId := "doc" ++ toString w.nextDocId
      let savedRecord :=
        setField (setField data "_schemaName" (.vstr schemaName)) "_id" (.vstr newId)
      let models1 := w.models.map (fun p =>
        if p.fst == schemaName then (p.fst, { p.snd with docs := p.snd.docs ++ [(newId, savedRecord)] })
        else p)
      let w1 : CrudWorld := { w with models := models1, nextDocId := w.nextDocId + 1 }
      let w2 := tryLogChange w1
        { documentId := newId
          schemaName := schemaName
          collectionName := model.collectionName
          operation := "create"
          previousState := none
          currentState := some savedRecord
          userId := ctx.userId
          userAgent := ctx.userAgent
          ipAddress := ctx.ipAddress
          metadata := [("source", .vstr "api")] }
      (.ok savedRecord, w2)

/-- Model of `DynamicCrudService.updateRecord`: schema lookup, validation, model
lookup, read the previous state, `findOneAndUpdate` stamping
`updatedAt`, then the caught ledger write. Returns the updated record. -/
def updateRecord (w : CrudWorld) (schemaName recordId : String) (updateData : State)
    (ctx : ActorContext) : Except String State × CrudWorld :=
  if !w.schemaNames.contains schemaName then
    (.error "Schema not found", w)
  else if !w.validateOk updateData then
    (.error "Validation failed", w)
  else
    match findModel w.models schemaName with
    | none => (.error "Dynamic model not found", w)
    | some model =>
      match (model.docs.find? (docMatches recordId schemaName)).map Prod.snd with
      | none => (.error "Record not found", w)
      | some previousState =>
        let currentState := applyUpdate previousState (updateData ++ [("updatedAt", .vnum w.now)])
        let w1 : CrudWorld := { w with models := setDoc w.models schemaName recordId currentState }
        let w2 := tryLogChange w1
          { documentId := recordId
            schemaName := schemaName
            collectionName := model.collectionName
            operation := "update"
            previousState := some previousState
            currentState := some currentState
            userId := ctx.userId
            userAgent := ctx.userAgent
            ipAddress := ctx.ipAddress
            metadata := [("source", .vstr "api")] }
        (.ok currentState, w2)

/-- Model of `DynamicCrudService.deleteRecord`: schema lookup, model lookup, read
the previous state, `findOneAndDelete`, then the caught ledger write.
Returns `true`. -/
def deleteRecord (w : CrudWorld) (schemaName recordId : String) (ctx : ActorContext) :
    Except String Bool × CrudWorld :=
  if !w.schemaNames.contains schemaName then
    (.error "Schema not found", w)
  else
    match findModel w.models schemaName with
    | none => (.error "Dynamic model not found", w)
    | some model =>
      match (model.docs.find? (docMatches recordId schemaName)).map Prod.snd with
      | none => (.error "Record not found", w)
      | some previousState =>
        let models1 := w.models.map (fun p =>
          if p.fst == schemaName then
            (p.fst, { p.snd with docs := p.snd.docs.filter (fun q => !docMatches recordId schemaName q) })
          else p)
        let w1 : CrudWorld := { w with models := models1 }
        let w2 := tryLogChange w1
          { documentId := recordId
            schemaName := schemaName
            collectionName := model.collectionName
            operation := "delete"
            previousState := some previousState
            currentState := none
            userId := ctx.userId
            userAgent := ctx.userAgent
            ipAddress := ctx.ipAddress
            metadata := [("source", .vstr "api")] }
        (.ok true, w2)

/-- A concrete CRUD world whose ledger write fails: schema `s`
registered, the validator accepting everything, `exModel` live. -/
def exCrudWorld : CrudWorld :=
  { schemaNames := ["s"]
    models := [("s", exModel)]
    auditStore := []
    auditSaveOk := false
    validateOk := fun _ => true
    now := 50
    nextEntryId := 0
    nextDocId := 7 }

/-- Digit run at the front of a character list. -/
def digitsPrefix (cs : List Char) : List Char :=
  cs.takeWhile (fun c => c.isDigit)

/-- Numeric value of a digit run. -/
def digitsToNat (ds : List Char) : Nat :=
  ds.foldl (fun acc c => acc * 10 + (c.toNat - Char.toNat '0')) 0

/-- JavaScript `parseInt(s)` for base-10 inputs: skip leading spaces,
optional sign, then the longest digit prefix; `none` models `NaN`.
Trailing characters — including a fractional part such as `".5"` — are
ignored. -/
def parseIntJS (s : String) : Option Int :=
  let cs := s.data.dropWhile (fun c => c == ' ')
  match cs with
  | '-' :: rest =>
    let ds := digitsPrefix rest
    if ds.isEmpty then none else some (-(Int.ofNat (digitsToNat ds)))
  | '+' :: rest =>
    let ds := digitsPrefix rest
    if ds.isEmpty then none else some (Int.ofNat (digitsToNat ds))
  | _ =>
    let ds := digitsPrefix cs
    if ds.isEmpty then none else some (Int.ofNat (digitsToNat ds))

/-- An HTTP-style outcome: success payload, or failure message with
status code. -/
inductive ApiResponse (α : Type) where
  | success : α → ApiResponse α
  | failure : String → Nat → ApiResponse α

/-- The `validateVersionNumber` middleware: reject a missing value, a
value parsing to `NaN`, or a parsed value below 1; otherwise pass the
parsed version through. -/
def validateVersionNumber (version : String) : Except String Int :=
  if version.isEmpty then .error "Version number is required"
  else
    match parseIntJS version with
    | none => .error "Version must be a positive integer"
    | some v => if v < 1 then .error "Version must be a positive integer" else .ok v

/-- Model of `AuditController.getDocumentAtVersion`. Alongside the response it
returns the trace of version numbers passed into the Ledger
(`AuditService.getDocumentAtVersion` calls). -/
def controllerGetDocumentAtVersion (store : AuditStore) (schemaName recordId : String)
    (versionParam : String) : ApiResponse VersionView × List Int :=
  match parseIntJS versionParam with
  | none => (.failure "Invalid version number" 400, [])
  | some v =>
    if v < 1 then (.failure "Invalid version number" 400, [])
    else
      match getDocumentAtVersion store recordId schemaName v with
      | none => (.failure "Version not found for document" 404, [v])
      | some doc => (.success doc, [v])

/-- Model of `AuditController.revertDocumentToVersion`. Alongside the response it
returns the trace of version numbers passed into the Ledger
(`AuditService.revertToVersion` calls). -/
def controllerRevertDocumentToVersion (w : AuditWorld) (schemaName recordId : String)
    (versionParam : String) (opts : RevertOptions) :
    (ApiResponse RevertResult × List Int) × AuditWorld :=
  match parseIntJS versionParam with
  | none => ((.failure "Invalid version number" 400, []), w)
  | some v =>
    if v < 1 then ((.failure "Invalid version number" 400, []), w)
    else
      match revertToVersion w recordId schemaName v opts with
      | (.error msg, w1) => ((.failure msg 400, [v]), w1)
      | (.ok r, w1) => ((.success r, [v]), w1)

/-- One entry of the version-comparison diff. -/
structure VersionDiff where
  field : String
  fromValue : Option Value
  toValue : Option Value
  changeType : String

/-- Model of `AuditController.getChangeType`: `added` when only the new value is
present, `removed` when only the old one is, otherwise `modified`. -/
def getChangeType (fromValue toValue : Option Value) : String :=
  if fromValue.isNone && toValue.isSome then "added"
  else if fromValue.isSome && toValue.isNone then "removed"
  else "modified"

/-- Model of `AuditController.calculateVersionDifferences`: the same key-union
diff as the ledger, tagged with a change classification. -/
def calculateVersionDifferences (fromState toState : State) : List VersionDiff :=
  (dedupKeepFirst (stateKeys fromState ++ stateKeys toState)).filterMap
    (fun field =>
      if systemFields.contains field then none
      else
        let fromValue := lookupField fromState field
        let toValue := lookupField toState field
        if jsonDiffers fromValue toValue then
          some { field := field, fromValue := fromValue, toValue := toValue
                 changeType := getChangeType fromValue toValue }
        else none)

/-- The success payload of the comparison endpoint. -/
structure VersionComparison where
  fromVersion : Int
  toVersion : Int
  differences : List VersionDiff
  totalChanges : Nat

/-- Model of `AuditController.compareDocumentVersions`: require both parameters,
parse both with `parseInt`, reject only `NaN` results, then fetch both
versions from the Ledger and diff them. The trace again records the
version numbers passed into the Ledger. -/
def controllerCompareDocumentVersions (store : AuditStore) (schemaName recordId : String)
    (fromVersion toVersion : String) : ApiResponse VersionComparison × List Int :=
  if fromVersion.isEmpty || toVersion.isEmpty then
    (.failure "Both fromVersion and toVersion are required" 400, [])
  else
    match parseIntJS fromVersion, parseIntJS toVersion with
    | some f, some t =>
      let fromDoc := getDocumentAtVersion store recordId schemaName f
      let toDoc := getDocumentAtVersion store recordId schemaName t
      (match fromDoc with
       | none => (.failure "fromVersion not found" 404, [f, t])
       | some fd =>
         match toDoc with
         | none => (.failure "toVersion not found" 404, [f, t])
         | some td =>
           let differences := calculateVersionDifferences (fd.state.getD []) (td.state.getD [])
           (.success { fromVersion := f, toVersion := t, differences := differences
                       totalChanges := differences.length }, [f, t]))
    | _, _ => (.failure "Version numbers must be integers" 400, [])

/-- A schema-declared reference relationship. -/
structure Relationship where
  field : String
  referencedSchema : String
  referenceType : String

/-- A registered schema with its relationships. -/
structure SchemaInfo where
  name : String
  relationships : List Relationship

/-- The world `ChangePropagation` runs in. `updateOk` is the outcome of
the store write for each `(schemaName, recordId)` dependent. -/
structure PropWorld where
  schemas : List SchemaInfo
  models : Models
  now : Int
  updateOk : String → String → Bool

/-- Does a stored document hold the given reference? Single references
compare the field to the id; array references ask whether the array
contains the id (the `$in: [recordId]` query). -/
def refMatches (rel : Relationship) (recordId : String) (st : State) : Bool :=
  if rel.referenceType == "array_reference" then
    match lookupField st rel.field with
    | some (.varr xs) => xs.any (fun v => match v with | .vstr s => s == recordId | _ => false)
    | _ => false
  else
    match lookupField st rel.field with
    | some (.vstr s) => s == recordId
    | _ => false

/-- One dependent found by the scan. -/
structure DependentRecord where
  schemaName : String
  recordId : String
  field : String
  relationshipType : String
  record : State

/-- Model of `ChangePropagation.findDependentRecords`: scan every active schema,
and for each relationship pointing at the changed schema query that
schema's collection for documents holding the reference. -/
def findDependentRecords (w : PropWorld) (schemaName recordId : String) :
    List DependentRecord :=
  w.schemas.foldl (fun acc schema =>
    match findModel w.models schema.name with
    | none => acc
    | some model =>
      schema.relationships.foldl (fun acc2 rel =>
        if rel.referencedSchema == schemaName then
          acc2 ++ (model.docs.filter (fun q => refMatches rel recordId q.snd)).map
            (fun q =>
              { schemaName := schema.name
                recordId := q.fst
                field := rel.field
                relationshipType := rel.referenceType
                record := q.snd })
        else acc2) acc) []

/-- Model of `ChangePropagation.updateDependentRecord`: stamp
`<field>_lastUpdated` with the current time and bump
`<field>_version` on the dependent document. -/
def updateDependentRecord (w : PropWorld) (dep : DependentRecord) :
    Except String PropWorld :=
  match findModel w.models dep.schemaName with
  | none => .error "Model not found"
  | some model =>
    match (model.docs.find? (fun q => q.fst == dep.recordId)).map Prod.snd with
    | none => .error "Dependent record not found"
    | some current =>
      let oldVersion : Int :=
        match lookupField current (dep.field ++ "_version") with
        | some (.vnum n) => n
        | _ => 0
      let updateData : State :=
        [(dep.field ++ "_lastUpdated", .vnum w.now),
         (dep.field ++ "_version", .vnum (oldVersion + 1))]
      if w.updateOk dep.schemaName dep.recordId then
        .ok { w with models := setDoc w.models dep.schemaName dep.recordId (applyUpdate current updateData) }
      else .error "Update failed"

/-- A collected per-dependent propagation failure. -/
structure PropError where
  schemaName : String
  recordId : String
  message : String

/-- The result of `propagateChanges`. -/
structure PropResult where
  propagated : Nat
  errors : List PropError
  dependentRecords : List DependentRecord

/-- One iteration of the propagation loop: on failure the error is
appended and the world is left as it was; the loop always continues. -/
def propagateStep (acc : Nat × List PropError × PropWorld) (dep : DependentRecord) :
    Nat × List PropError × PropWorld :=
  match updateDependentRecord acc.snd.snd dep with
  | .ok w1 => (acc.fst + 1, acc.snd.fst, w1)
  | .error msg => (acc.fst, acc.snd.fst ++ [⟨dep.schemaName, dep.recordId, msg⟩], acc.snd.snd)

/-- Model of `ChangePropagation.propagateChanges`: find the dependents, update
each in turn collecting per-dependent failures. -/
def propagateChanges (w : PropWorld) (schemaName recordId : String) :
    PropResult × PropWorld :=
  let deps := findDependentRecords w schemaName recordId
  let r := deps.foldl propagateStep (0, [], w)
  ({ propagated := r.fst, errors := r.snd.fst, dependentRecords := deps }, r.snd.snd)

/-- The storage key of a dependent. -/
def depKey (dep : DependentRecord) : String × String :=
  (dep.schemaName, dep.recordId)

/-- Whether `updateDependentRecord` fails for a dependent: the model or
the record is missing, or the store write is refused. -/
def depFails (w : PropWorld) (dep : DependentRecord) : Bool :=
  !(getDoc w.models dep.schemaName dep.recordId).isSome ||
    !w.updateOk dep.schemaName dep.recordId

/-- The stamped state written onto a dependent: `<field>_lastUpdated`
set to now, `<field>_version` set to its old numeric value (default 0)
plus one. -/
def stampedState (dep : DependentRecord) (cur : State) (now : Int) : State :=
  applyUpdate cur
    [(dep.field ++ "_lastUpdated", .vnum now),
     (dep.field ++ "_version", .vnum
       ((match lookupField cur (dep.field ++ "_version") with
         | some (.vnum n) => n
         | _ => 0) + 1))]

/-- A concrete propagation world: schema `Product` holds a single
reference `category` and an array reference `relatedProducts`, both to
`Category`; products `p1` and `p2` reference category `c1`, `p3` does
not; the store write for `p2` fails. -/
def exPropWorld : PropWorld :=
  { schemas :=
      [{ name := "Product"
         relationships :=
           [{ field := "category", referencedSchema := "Category"
              referenceType := "reference" },
            { field := "relatedProducts", referencedSchema := "Category"
              referenceType := "array_reference" }] }]
    models :=
      [("Product",
        { collectionName := "products"
          docs :=
            [("p1", [("category", .vstr "c1")]),
             ("p2", [("category", .vstr "c1")]),
             ("p3", [("category", .vstr "c9"),
                     ("relatedProducts", .varr [.vstr "c7"])])] })]
    now := 99
    updateOk := fun _ i => !(i == "p2") }

/-! ## Lemmas about the key-union diff -/

theorem dedupKeepFirst_mem {x : String} : ∀ {l : List String}, x ∈ dedupKeepFirst l ↔ x ∈ l := by
  intro l
  induction l with
  | nil => simp [dedupKeepFirst]
  | cons y ys ih =>
    simp only [dedupKeepFirst, List.mem_cons, List.mem_filter, ih, bne_iff_ne, ne_eq]
    constructor
    · rintro (rfl | ⟨h1, _⟩)
      · exact Or.inl rfl
      · exact Or.inr h1
    · rintro (rfl | h)
      · exact Or.inl rfl
      · by_cases hxy : x = y
        · exact Or.inl hxy
        · exact Or.inr ⟨h, hxy⟩

theorem dedupKeepFirst_nodup : ∀ (l : List String), (dedupKeepFirst l).Nodup := by
  intro l
  induction l with
  | nil => simp [dedupKeepFirst]
  | cons y ys ih =>
    refine List.Nodup.cons ?_ (ih.filter _)
    intro hmem
    rcases List.mem_filter.mp hmem with ⟨_, hne⟩
    simp at hne

theorem diffEntry_eq_some_iff {p c : State} {f : String} {cf : ChangedField} :
    diffEntry p c f = some cf ↔
      (systemFields.contains f = false ∧
       jsonDiffers (lookupField p f) (lookupField c f) = true ∧
       cf = ⟨f, lookupField p f, lookupField c f⟩) := by
  constructor
  · intro h
    simp only [diffEntry] at h
    by_cases hs : systemFields.contains f
    · rw [if_pos hs] at h; cases h
    · rw [if_neg hs] at h
      have hs' : systemFields.contains f = false := by
        revert hs; cases systemFields.contains f <;> simp
      by_cases hd : jsonDiffers (lookupField p f) (lookupField c f)
      · rw [if_pos hd] at h
        exact ⟨hs', hd, (Option.some_inj.mp h).symm⟩
      · rw [if_neg hd] at h; cases h
  · rintro ⟨hs, hd, rfl⟩
    simp only [diffEntry]
    rw [if_neg (by rw [hs]; exact Bool.false_ne_true), if_pos hd]

theorem calculateChangedFields_map_field (p c : State) :
    (calculateChangedFields p c).map ChangedField.field =
      (dedupKeepFirst (stateKeys p ++ stateKeys c)).filter
        (fun f => !systemFields.contains f &&
          jsonDiffers (lookupField p f) (lookupField c f)) := by
  unfold calculateChangedFields
  generalize dedupKeepFirst (stateKeys p ++ stateKeys c) = L
  induction L with
  | nil => rfl
  | cons f fs ih =>
    rw [List.filterMap_cons, List.filter_cons]
    by_cases hs : systemFields.contains f
    · have h1 : diffEntry p c f = none := by simp only [diffEntry, if_pos hs]
      rw [h1, hs]
      simpa using ih
    · have hs' : systemFields.contains f = false := by
        revert hs; cases systemFields.contains f <;> simp
      by_cases hd : jsonDiffers (lookupField p f) (lookupField c f)
      · have h1 : diffEntry p c f =
            some ⟨f, lookupField p f, lookupField c f⟩ := by
          simp only [diffEntry]
          rw [if_neg hs, if_pos hd]
        rw [h1, hs', hd]
        simpa using ih
      · have hd' : jsonDiffers (lookupField p f) (lookupField c f) = false := by
          revert hd; cases jsonDiffers (lookupField p f) (lookupField c f) <;> simp
        have h1 : diffEntry p c f = none := by
          simp only [diffEntry]
          rw [if_neg hs, if_neg hd]
        rw [h1, hs', hd']
        simpa using ih

/-- C4 — Diff correctness of `calculateChangedFields`. A record appears
for a field exactly when the field lies in the key union of the two
states, is not one of the system fields, and its serialized values
differ — and that record carries the old and new values of the field;
each qualifying field is reported exactly once; and the update from
`{a:1, b:2}` to `{a:1, b:3, c:4}` yields exactly the entries for `b`
(2 to 3) and `c` (absent to 4), and none for `a`. -/
theorem calculateChangedFields_correct :
    (∀ (p c : State) (cf : ChangedField),
      cf ∈ calculateChangedFields p c ↔
        (cf.field ∈ stateKeys p ++ stateKeys c ∧
         systemFields.contains cf.field = false ∧
         jsonDiffers (lookupField p cf.field) (lookupField c cf.field) = true ∧
         cf.oldValue = lookupField p cf.field ∧
         cf.newValue = lookupField c cf.field)) ∧
    (∀ (p c : State), ((calculateChangedFields p c).map ChangedField.field).Nodup) ∧
    calculateChangedFields [("a", .vnum 1), ("b", .vnum 2)]
        [("a", .vnum 1), ("b", .vnum 3), ("c", .vnum 4)] =
      [⟨"b", some (.vnum 2), some (.vnum 3)⟩, ⟨"c", none, some (.vnum 4)⟩] := by
  refine ⟨?_, ?_, rfl⟩
  · intro p c cf
    unfold calculateChangedFields
    rw [List.mem_filterMap]
    constructor
    · rintro ⟨f, hf, hsome⟩
      rcases diffEntry_eq_some_iff.mp hsome with ⟨hs, hd, rfl⟩
      exact ⟨dedupKeepFirst_mem.mp hf, hs, hd, rfl, rfl⟩
    · rintro ⟨hmem, hs, hd, hold, hnew⟩
      refine ⟨cf.field, dedupKeepFirst_mem.mpr hmem, ?_⟩
      rw [diffEntry_eq_some_iff]
      exact ⟨hs, hd, by cases cf; simp_all⟩
  · intro p c
    rw [calculateChangedFields_map_field]
    exact (dedupKeepFirst_nodup _).filter _

/-! ## Lemmas about version assignment -/

theorem foldl_max_le_init (l : List AuditEntry) (init : Int) :
    init ≤ l.foldl (fun acc e => max acc e.version) init := by
  induction l generalizing init with
  | nil => exact le_refl _
  | cons e es ih => exact le_trans (le_max_left _ _) (ih _)

theorem mem_le_foldl_max {e : AuditEntry} :
    ∀ (l : List AuditEntry) (init : Int), e ∈ l →
      e.version ≤ l.foldl (fun acc x => max acc x.version) init := by
  intro l
  induction l with
  | nil => intro init h; cases h
  | cons x xs ih =>
    intro init h
    rcases List.mem_cons.mp h with rfl | hmem
    · exact le_trans (le_max_right _ _) (foldl_max_le_init xs _)
    · exact ih _ hmem

theorem getLatestVersion_nonneg (store : AuditStore) (doc schema : String) :
    0 ≤ getLatestVersion store doc schema :=
  foldl_max_le_init _ 0

theorem matching_version_le (store : AuditStore) (doc schema : String) :
    ∀ e ∈ store, (e.documentId == doc && e.schemaName == schema) = true →
      e.version ≤ getLatestVersion store doc schema := by
  intro e he hmatch
  exact mem_le_foldl_max _ 0 (List.mem_filter.mpr ⟨he, hmatch⟩)

theorem getLatestVersion_eq_foldl_versions (store : AuditStore) (doc schema : String) :
    getLatestVersion store doc schema =
      (matchingVersions store doc schema).foldl max 0 := by
  unfold getLatestVersion matchingVersions
  rw [List.foldl_map]

theorem foldl_max_versionsUpTo : ∀ (k : Nat), (versionsUpTo k).foldl max 0 = (k : Int) := by
  intro k
  induction k with
  | zero => rfl
  | succ n ih =>
    unfold versionsUpTo
    rw [List.range_succ, List.map_append, List.foldl_append]
    unfold versionsUpTo at ih
    rw [ih]
    simp only [List.map_cons, List.map_nil, List.foldl_cons, List.foldl_nil,
      Int.ofNat_eq_natCast]
    rw [max_eq_right (by omega)]
    omega

theorem matchingEntries_append (store : AuditStore) (l : AuditStore) (doc schema : String) :
    matchingEntries (store ++ l) doc schema =
      matchingEntries store doc schema ++ matchingEntries l doc schema := by
  unfold matchingEntries
  rw [List.filter_append]

theorem logChange_snd (store : AuditStore) (d : AuditData) (now : Int) (eid : Nat) :
    (logChange store d now eid).snd = store ++ [(logChange store d now eid).fst] := rfl

theorem logChange_fst_version (store : AuditStore) (d : AuditData) (now : Int) (eid : Nat) :
    (logChange store d now eid).fst.version =
      getLatestVersion store d.documentId d.schemaName + 1 := rfl

theorem matchingVersions_after_logChange (store : AuditStore) (d : AuditData)
    (now : Int) (eid : Nat) :
    matchingVersions (logChange store d now eid).snd d.documentId d.schemaName =
      matchingVersions store d.documentId d.schemaName ++
        [getLatestVersion store d.documentId d.schemaName + 1] := by
  rw [logChange_snd]
  unfold matchingVersions
  rw [matchingEntries_append, List.map_append]
  congr 1
  unfold matchingEntries
  rw [List.filter_cons]
  simp [logChange]

theorem versionsUpTo_succ (k : Nat) :
    versionsUpTo (k + 1) = versionsUpTo k ++ [(k : Int) + 1] := by
  unfold versionsUpTo
  rw [List.range_succ, List.map_append]
  rfl

theorem runLogChanges_versions (doc schema : String) :
    ∀ (calls : List AuditData) (store : AuditStore) (k : Nat) (now : Int) (eid : Nat),
      (∀ a ∈ calls, a.documentId = doc ∧ a.schemaName = schema) →
      matchingVersions store doc schema = versionsUpTo k →
      matchingVersions (runLogChanges store calls now eid) doc schema =
        versionsUpTo (k + calls.length) := by
  intro calls
  induction calls with
  | nil =>
    intro store k now eid _ hst
    simpa using hst
  | cons c cs ih =>
    intro store k now eid hall hst
    obtain ⟨hdoc, hsch⟩ := hall c (List.mem_cons_self _ _)
    have hlatest : getLatestVersion store doc schema = (k : Int) := by
      rw [getLatestVersion_eq_foldl_versions, hst, foldl_max_versionsUpTo]
    have hstep : matchingVersions (logChange store c now eid).snd doc schema =
        versionsUpTo (k + 1) := by
      have h := matchingVersions_after_logChange store c now eid
      rw [hdoc, hsch] at h
      rw [h, hst, hlatest, versionsUpTo_succ]
    have htail := ih (logChange store c now eid).snd (k + 1) (now + 1) (eid + 1)
      (fun a ha => hall a (List.mem_cons_of_mem _ ha)) hstep
    show matchingVersions (runLogChanges (logChange store c now eid).snd cs (now + 1) (eid + 1))
        doc schema = versionsUpTo (k + (cs.length + 1))
    rw [htail]
    congr 1
    omega

/-- C1 — Version assignment. Each serialized `logChange` call persists
an entry whose version is one plus the highest version already stored
for its `(documentId, schemaName)` pair (`getLatestVersion`, defaulting
to 0 when no entry exists); consequently a serialized run of calls for
one document, starting from a store holding nothing for that document,
stores exactly the versions `1, 2, ..., n` in order. -/
theorem logChange_version_correct :
    (∀ (store : AuditStore) (d : AuditData) (now : Int) (eid : Nat),
      (logChange store d now eid).fst.version =
        getLatestVersion store d.documentId d.schemaName + 1) ∧
    (∀ (doc schema : String) (calls : List AuditData) (now : Int) (eid : Nat),
      (∀ a ∈ calls, a.documentId = doc ∧ a.schemaName = schema) →
      matchingVersions (runLogChanges [] calls now eid) doc schema =
        versionsUpTo calls.length) := by
  refine ⟨fun _ _ _ _ => rfl, ?_⟩
  intro doc schema calls now eid hall
  have h := runLogChanges_versions doc schema calls [] 0 now eid hall rfl
  simpa using h

/-- Witness for C1: three serialized calls for document `d` of schema
`s` starting from the empty store yield exactly the versions
`[1, 2, 3]`. -/
theorem logChange_version_correct_witness :
    (∀ a ∈ [exCall, exCall, exCall], a.documentId = "d" ∧ a.schemaName = "s") ∧
    matchingVersions (runLogChanges [] [exCall, exCall, exCall] 0 0) "d" "s" =
      versionsUpTo 3 := by
  refine ⟨?_, logChange_version_correct.2 "d" "s" [exCall, exCall, exCall] 0 0 ?_⟩ <;>
  · rintro a ha
    simp only [List.mem_cons, List.not_mem_nil, or_false] at ha
    rcases ha with rfl | rfl | rfl <;> exact ⟨rfl, rfl⟩

/-! ## Lemmas about state reconstruction -/

theorem find?_version_append_last {store : AuditStore} {e : AuditEntry}
    {doc schema : String} {v : Int}
    (hdoc : e.documentId = doc) (hsch : e.schemaName = schema) (hv : e.version = v)
    (hold : ∀ x ∈ store, (x.documentId == doc && x.schemaName == schema) = true →
      x.version < v) :
    (store ++ [e]).find?
        (fun x => x.documentId == doc && x.schemaName == schema && x.version == v) =
      some e := by
  subst hdoc; subst hsch; subst hv
  rw [List.find?_append]
  have h1 : store.find?
      (fun x => x.documentId == e.documentId && x.schemaName == e.schemaName &&
        x.version == e.version) = none := by
    rw [List.find?_eq_none]
    intro x hx
    by_cases hm : (x.documentId == e.documentId && x.schemaName == e.schemaName) = true
    · have hlt := hold x hx hm
      intro hcontra
      rw [Bool.and_eq_true] at hcontra
      have hv2 := hcontra.2
      rw [beq_iff_eq] at hv2
      omega
    · intro hcontra
      rw [Bool.and_eq_true] at hcontra
      exact hm hcontra.1
  rw [h1]
  simp only [Option.none_or]
  exact List.find?_cons_of_pos _ (by simp)

/-- C3 — State round-trip. Immediately after a `logChange` call that
persisted an entry with version `v` and a given `currentState`,
`getDocumentAtVersion` at `v` returns a view whose `state` field is
exactly that `currentState`; and on any store, a version with no
matching entry yields `none`. -/
theorem getDocumentAtVersion_roundtrip :
    (∀ (store : AuditStore) (d : AuditData) (now : Int) (eid : Nat),
      getDocumentAtVersion (logChange store d now eid).snd d.documentId d.schemaName
          (logChange store d now eid).fst.version =
        some { version := (logChange store d now eid).fst.version
               timestamp := now
               operation := d.operation
               state := d.currentState
               changedFields := (logChange store d now eid).fst.changedFields
               metadata := d.metadata }) ∧
    (∀ (store : AuditStore) (documentId schemaName : String) (version : Int),
      (∀ e ∈ store,
        ¬(e.documentId = documentId ∧ e.schemaName = schemaName ∧ e.version = version)) →
      getDocumentAtVersion store documentId schemaName version = none) := by
  constructor
  · intro store d now eid
    unfold getDocumentAtVersion
    rw [logChange_snd store d now eid]
    have hold : ∀ x ∈ store,
        (x.documentId == d.documentId && x.schemaName == d.schemaName) = true →
        x.version < (logChange store d now eid).fst.version := by
      intro x hx hm
      have hle := matching_version_le store d.documentId d.schemaName x hx hm
      rw [logChange_fst_version]
      omega
    have hfind := @find?_version_append_last store (logChange store d now eid).fst
      d.documentId d.schemaName (logChange store d now eid).fst.version rfl rfl rfl hold
    rw [hfind]
    rfl
  · intro store documentId schemaName version hno
    unfold getDocumentAtVersion
    have h1 : store.find?
        (fun e => e.documentId == documentId && e.schemaName == schemaName &&
          e.version == version) = none := by
      rw [List.find?_eq_none]
      intro x hx hcontra
      rw [Bool.and_eq_true, Bool.and_eq_true] at hcontra
      obtain ⟨⟨h1, h2⟩, h3⟩ := hcontra
      rw [beq_iff_eq] at h1 h2 h3
      exact hno x hx ⟨h1, h2, h3⟩
    rw [h1]

/-- Witness for C3: on the empty store no entry matches, and version 5
reconstructs to `none`. -/
theorem getDocumentAtVersion_roundtrip_witness :
    (∀ e ∈ ([] : AuditStore), ¬(e.documentId = "d" ∧ e.schemaName = "s" ∧ e.version = 5)) ∧
    getDocumentAtVersion [] "d" "s" 5 = none := by
  refine ⟨?_, getDocumentAtVersion_roundtrip.2 [] "d" "s" 5 ?_⟩ <;>
  · intro e he
    cases he

/-! ## History pagination and ordering -/

instance : IsTotal AuditEntry tsDescOrder :=
  ⟨fun a b => le_total b.timestamp a.timestamp⟩

instance : IsTrans AuditEntry tsDescOrder :=
  ⟨fun _ _ _ hab hbc => le_trans hbc hab⟩

/-- C6 counterexample — the claim says `getAuditHistory` orders entries
by `version` descending, but the source sorts on `{ timestamp: -1 }`:
with version 1 carrying a later timestamp than version 2, the page
comes back as versions `[1, 2]`, which is not descending. -/
theorem getAuditHistory_version_order_counterexample :
    ((getAuditHistory [exEntryA, exEntryB] "d" "s" 1 20 none none none).auditLogs.map
        (fun e => e.version)) = [1, 2] ∧
    ¬ List.Sorted (fun a b : Int => b ≤ a) [1, 2] := by
  constructor
  · rfl
  · intro h
    have h12 := List.rel_of_sorted_cons h 2 (by simp)
    omega

/-- C6 (amended) — `getAuditHistory` returns the matching entries
ordered by `timestamp` descending (which coincides with `version`
descending only when timestamps increase with versions), paged by
`skip = (page-1)*limit`, with pagination metadata consistent with the
number of matching entries and the requested page and limit:
`currentPage = page`, `totalRecords` = number of matching entries,
`totalPages = ceil(totalRecords/limit)`, `hasNextPage` iff
`page < totalPages` and `hasPrevPage` iff `page > 1`. -/
theorem getAuditHistory_paginated_correct (store : AuditStore)
    (documentId schemaName : String) (page limit : Nat) (opF : Option String)
    (sd ed : Option Int) :
    ((getAuditHistory store documentId schemaName page limit opF sd ed).auditLogs.Sorted
        tsDescOrder) ∧
    (∀ e ∈ (getAuditHistory store documentId schemaName page limit opF sd ed).auditLogs,
      e ∈ store ∧ historyQuery documentId schemaName opF sd ed e = true) ∧
    ((getAuditHistory store documentId schemaName page limit opF sd ed).auditLogs =
      (((store.filter (historyQuery documentId schemaName opF sd ed)).insertionSort
          tsDescOrder).drop ((page - 1) * limit)).take limit) ∧
    ((getAuditHistory store documentId schemaName page limit opF sd ed).pagination =
      { currentPage := page
        totalPages :=
          ((store.filter (historyQuery documentId schemaName opF sd ed)).length + limit - 1)
            / limit
        totalRecords := (store.filter (historyQuery documentId schemaName opF sd ed)).length
        hasNextPage := decide (page <
          ((store.filter (historyQuery documentId schemaName opF sd ed)).length + limit - 1)
            / limit)
        hasPrevPage := decide (1 < page)
        limit := limit }) := by
  have hsub : List.Sublist
      (getAuditHistory store documentId schemaName page limit opF sd ed).auditLogs
      ((store.filter (historyQuery documentId schemaName opF sd ed)).insertionSort
        tsDescOrder) :=
    List.Sublist.trans (List.take_sublist _ _) (List.drop_sublist _ _)
  refine ⟨?_, ?_, rfl, rfl⟩
  · exact (List.sorted_insertionSort tsDescOrder _).sublist hsub
  · intro e he
    have hmem : e ∈ (store.filter
        (historyQuery documentId schemaName opF sd ed)).insertionSort tsDescOrder :=
      hsub.subset he
    rw [List.mem_insertionSort] at hmem
    exact ⟨(List.mem_filter.mp hmem).1, (List.mem_filter.mp hmem).2⟩

/-! ## Lemmas about the revert engine -/

theorem map_eq_self_of_forall {α : Type} {l : List α} {f : α → α}
    (h : ∀ a ∈ l, f a = a) : l.map f = l := by
  rw [List.map_congr_left h, List.map_id']

theorem revert_preApplyFail_eq {w : AuditWorld} {documentId schemaName : String}
    {targetVersion : Int} (opts : RevertOptions)
    (h : revertPreApplyFailure w documentId schemaName targetVersion = true) :
    ∃ msg, revertToVersion w documentId schemaName targetVersion opts =
      (.error msg, w) := by
  unfold revertPreApplyFailure at h
  unfold revertToVersion
  cases htarget : findTargetEntry w documentId schemaName targetVersion with
  | none => exact ⟨_, rfl⟩
  | some target =>
    rw [htarget] at h
    simp only [] at h ⊢
    cases hcan : target.canRevert with
    | false =>
      simp only [hcan, Bool.not_false, if_true]
      exact ⟨_, rfl⟩
    | true =>
      rw [hcan] at h
      simp only [Bool.not_true, Bool.false_eq_true, if_false] at h ⊢
      cases hstate : target.currentState with
      | none =>
        simp only [hstate]
        exact ⟨_, rfl⟩
      | some targetState =>
        rw [hstate] at h
        simp only [] at h
        cases hmodel : findModel w.models schemaName with
        | none =>
          simp only [hmodel]
          exact ⟨_, rfl⟩
        | some model =>
          rw [hmodel] at h
          simp only [] at h
          cases hdoc : findLiveDoc model documentId with
          | none =>
            simp only [hdoc]
            exact ⟨_, rfl⟩
          | some currentState =>
            rw [hdoc] at h
            simp only [] at h
            cases happly : w.applyOk with
            | false =>
              simp only [hdoc, happly, if_pos]
              exact ⟨_, rfl⟩
            | true =>
              rw [happly] at h
              simp at h

theorem revertToVersion_success_eq {w : AuditWorld} {documentId schemaName : String}
    {targetVersion : Int} (opts : RevertOptions) {t : AuditEntry} {ts : State}
    {m : DynModel} {cur : State}
    (htarget : findTargetEntry w documentId schemaName targetVersion = some t)
    (hcan : t.canRevert = true)
    (hstate : t.currentState = some ts)
    (hmodel : findModel w.models schemaName = some m)
    (hdoc : findLiveDoc m documentId = some cur)
    (happly : w.applyOk = true)
    (hsave : w.saveOk = true) :
    revertToVersion w documentId schemaName targetVersion opts =
      (.ok { document := revertedDocState cur ts w.now
             auditLog := (logChange w.auditStore
               (revertAuditData documentId schemaName m.collectionName targetVersion opts
                 cur (revertedDocState cur ts w.now)) w.now w.nextEntryId).fst
             revertedFromVersion := targetVersion },
       { w with
         models := setDoc w.models schemaName documentId (revertedDocState cur ts w.now)
         auditStore := backfillRevertedFrom
           (logChange w.auditStore
             (revertAuditData documentId schemaName m.collectionName targetVersion opts
               cur (revertedDocState cur ts w.now)) w.now w.nextEntryId).snd
           w.nextEntryId t.entryId
         nextEntryId := w.nextEntryId + 1 }) := by
  unfold revertToVersion
  rw [htarget]
  simp only [hcan, hstate, hmodel, hdoc, happly, Bool.not_true, Bool.false_eq_true,
    if_false, logChangeE, hsave, if_true]
  rfl

theorem revertPreApplyFailure_false {w : AuditWorld} {documentId schemaName : String}
    {targetVersion : Int}
    (h : revertPreApplyFailure w documentId schemaName targetVersion = false) :
    ∃ t ts m cur,
      findTargetEntry w documentId schemaName targetVersion = some t ∧
      t.canRevert = true ∧ t.currentState = some ts ∧
      findModel w.models schemaName = some m ∧ findLiveDoc m documentId = some cur ∧
      w.applyOk = true := by
  unfold revertPreApplyFailure at h
  cases htarget : findTargetEntry w documentId schemaName targetVersion with
  | none => simp [htarget] at h
  | some t =>
    rw [htarget] at h
    simp only [] at h
    cases hcan : t.canRevert with
    | false => simp [hcan] at h
    | true =>
      rw [hcan] at h
      simp only [Bool.not_true, Bool.false_eq_true, if_false] at h
      cases hstate : t.currentState with
      | none => simp [hstate] at h
      | some ts =>
        rw [hstate] at h
        simp only [] at h
        cases hmodel : findModel w.models schemaName with
        | none => simp [hmodel] at h
        | some m =>
          rw [hmodel] at h
          simp only [] at h
          cases hdoc : findLiveDoc m documentId with
          | none => simp [hdoc] at h
          | some cur =>
            rw [hdoc] at h
            simp only [] at h
            refine ⟨t, ts, m, cur, ?_, ?_, ?_, ?_, ?_, ?_⟩
            · first | rfl | exact htarget
            · first | rfl | exact hcan
            · first | rfl | exact hstate
            · first | rfl | exact hmodel
            · first | rfl | exact hdoc
            · revert h
              cases w.applyOk <;> simp

theorem find?_map_replace {docs : List (String × State)} {docId : String} {cur st : State}
    (h : (docs.find? (fun q => q.fst == docId)).map Prod.snd = some cur) :
    ((docs.map (fun q => if q.fst == docId then (q.fst, st) else q)).find?
        (fun q => q.fst == docId)).map Prod.snd = some st := by
  induction docs with
  | nil => simp at h
  | cons q qs ih =>
    by_cases hq : q.fst == docId
    · rw [List.map_cons, if_pos hq]
      rw [@List.find?_cons_of_pos _ (fun q2 => q2.fst == docId) (q.fst, st) _ hq]
      rfl
    · rw [List.map_cons, if_neg hq]
      rw [@List.find?_cons_of_neg _ (fun q2 => q2.fst == docId) q _ hq]
      rw [@List.find?_cons_of_neg _ (fun q2 => q2.fst == docId) q qs hq] at h
      exact ih h

theorem findModel_map_replace {g : DynModel → DynModel} :
    ∀ {ms : Models} {schemaName : String} {m : DynModel},
    findModel ms schemaName = some m →
    findModel (ms.map (fun p => if p.fst == schemaName then (p.fst, g p.snd) else p))
        schemaName = some (g m) := by
  intro ms
  induction ms with
  | nil =>
    intro schemaName m hm
    simp [findModel] at hm
  | cons p ps ih =>
    intro schemaName m hm
    unfold findModel at hm ⊢
    by_cases hp : p.fst == schemaName
    · rw [@List.find?_cons_of_pos _ (fun p2 => p2.fst == schemaName) p ps hp] at hm
      simp at hm
      rw [List.map_cons, if_pos hp]
      rw [@List.find?_cons_of_pos _ (fun p2 => p2.fst == schemaName) (p.fst, g p.snd)
        (ps.map (fun p2 => if p2.fst == schemaName then (p2.fst, g p2.snd) else p2)) hp]
      simp [hm]
    · rw [@List.find?_cons_of_neg _ (fun p2 => p2.fst == schemaName) p ps hp] at hm
      rw [List.map_cons, if_neg hp]
      rw [@List.find?_cons_of_neg _ (fun p2 => p2.fst == schemaName) p
        (ps.map (fun p2 => if p2.fst == schemaName then (p2.fst, g p2.snd) else p2)) hp]
      exact ih hm

theorem getDoc_setDoc {ms : Models} {schemaName docId : String} {m : DynModel}
    {cur st : State}
    (hm : findModel ms schemaName = some m) (hd : findLiveDoc m docId = some cur) :
    getDoc (setDoc ms schemaName docId st) schemaName docId = some st := by
  have h1 : findModel (setDoc ms schemaName docId st) schemaName =
      some { m with
        docs := m.docs.map (fun q => if q.fst == docId then (q.fst, st) else q) } :=
    @findModel_map_replace
      (fun dm => { dm with
        docs := dm.docs.map (fun q => if q.fst == docId then (q.fst, st) else q) })
      ms schemaName m hm
  unfold getDoc
  rw [h1]
  exact find?_map_replace hd

theorem revertToVersion_savefail_eq {w : AuditWorld} {documentId schemaName : String}
    {targetVersion : Int} (opts : RevertOptions) {t : AuditEntry} {ts : State}
    {m : DynModel} {cur : State}
    (htarget : findTargetEntry w documentId schemaName targetVersion = some t)
    (hcan : t.canRevert = true)
    (hstate : t.currentState = some ts)
    (hmodel : findModel w.models schemaName = some m)
    (hdoc : findLiveDoc m documentId = some cur)
    (happly : w.applyOk = true)
    (hsave : w.saveOk = false) :
    revertToVersion w documentId schemaName targetVersion opts =
      (.error "Failed to revert document: Failed to log audit change: save failed",
       { w with
         models := setDoc w.models schemaName documentId (revertedDocState cur ts w.now) }) := by
  unfold revertToVersion
  rw [htarget]
  simp only [hcan, hstate, hmodel, hdoc, happly, Bool.not_true, Bool.false_eq_true,
    if_false, logChangeE, hsave, if_true]
  rfl

/-- C2 — A ledger entry for a revert is written only after the apply
step succeeded. Every failure before or during the apply (target entry
absent, `canRevert` false, no stored state, model or live document
missing, or the store update itself failing) leaves the audit store
unchanged and surfaces an error; conversely, whenever the audit store
grew, the apply had succeeded and the reverted document is in place. -/
theorem revertToVersion_no_ledger_without_apply (w : AuditWorld)
    (documentId schemaName : String) (targetVersion : Int) (opts : RevertOptions) :
    (revertPreApplyFailure w documentId schemaName targetVersion = true →
      (revertToVersion w documentId schemaName targetVersion opts).snd.auditStore =
        w.auditStore ∧
      ∃ msg, (revertToVersion w documentId schemaName targetVersion opts).fst =
        .error msg) ∧
    ((revertToVersion w documentId schemaName targetVersion opts).snd.auditStore ≠
        w.auditStore →
      w.applyOk = true ∧
      ∃ r, (revertToVersion w documentId schemaName targetVersion opts).fst = .ok r ∧
        getDoc (revertToVersion w documentId schemaName targetVersion opts).snd.models
          schemaName documentId = some r.document) := by
  constructor
  · intro hfail
    obtain ⟨msg, heq⟩ := revert_preApplyFail_eq opts hfail
    rw [heq]
    exact ⟨rfl, msg, rfl⟩
  · intro hchanged
    cases hpre : revertPreApplyFailure w documentId schemaName targetVersion with
    | true =>
      obtain ⟨msg, heq⟩ := revert_preApplyFail_eq opts hpre
      rw [heq] at hchanged
      exact absurd rfl hchanged
    | false =>
      obtain ⟨t, ts, m, cur, htarget, hcan, hstate, hmodel, hdoc, happly⟩ :=
        revertPreApplyFailure_false hpre
      refine ⟨happly, ?_⟩
      cases hsave : w.saveOk with
      | false =>
        have heq := revertToVersion_savefail_eq opts htarget hcan hstate hmodel hdoc
          happly hsave
        rw [heq] at hchanged
        exact absurd rfl hchanged
      | true =>
        have heq := revertToVersion_success_eq opts htarget hcan hstate hmodel hdoc
          happly hsave
        rw [heq]
        exact ⟨_, rfl, getDoc_setDoc hmodel hdoc⟩

/-- Witness for C2: in a world whose store holds only version 1, a
revert to the absent version 9 is a pre-apply failure, leaves the audit
store unchanged and returns an error. -/
theorem revertToVersion_no_ledger_without_apply_witness :
    revertPreApplyFailure exWorld "d" "s" 9 = true ∧
    ((revertToVersion exWorld "d" "s" 9 exOpts).snd.auditStore = exWorld.auditStore ∧
     ∃ msg, (revertToVersion exWorld "d" "s" 9 exOpts).fst = .error msg) :=
  ⟨by rfl, (revertToVersion_no_ledger_without_apply exWorld "d" "s" 9 exOpts).1 (by rfl)⟩

/-- C5 — A successful revert is itself audited: the audit store gains a
new latest entry with `operation = update`, `metadata.isRevert = true`,
`metadata.revertedToVersion` = the target version, `revertedFrom`
backfilled with the target entry's id, `previousState` = the pre-revert
live document and `currentState` = the post-apply document; its version
tops every previously stored version for the document. -/
theorem revertToVersion_audited (w : AuditWorld) (documentId schemaName : String)
    (targetVersion : Int) (opts : RevertOptions) (t : AuditEntry) (ts cur : State)
    (m : DynModel)
    (htarget : findTargetEntry w documentId schemaName targetVersion = some t)
    (hcan : t.canRevert = true)
    (hstate : t.currentState = some ts)
    (hmodel : findModel w.models schemaName = some m)
    (hdoc : findLiveDoc m documentId = some cur)
    (happly : w.applyOk = true)
    (hsave : w.saveOk = true)
    (hfresh : ∀ x ∈ w.auditStore, x.entryId ≠ w.nextEntryId) :
    ∃ e, (revertToVersion w documentId schemaName targetVersion opts).snd.auditStore =
        w.auditStore ++ [e] ∧
      e.operation = "update" ∧
      lookupField e.metadata "isRevert" = some (.vbool true) ∧
      lookupField e.metadata "revertedToVersion" = some (.vnum targetVersion) ∧
      e.revertedFrom = some t.entryId ∧
      e.previousState = some cur ∧
      e.currentState = some (revertedDocState cur ts w.now) ∧
      e.version = getLatestVersion w.auditStore documentId schemaName + 1 ∧
      ∀ x ∈ w.auditStore,
        (x.documentId == documentId && x.schemaName == schemaName) = true →
        x.version < e.version := by
  have heq := revertToVersion_success_eq opts htarget hcan hstate hmodel hdoc happly hsave
  rw [heq]
  refine ⟨{ (logChange w.auditStore
      (revertAuditData documentId schemaName m.collectionName targetVersion opts cur
        (revertedDocState cur ts w.now)) w.now w.nextEntryId).fst with
      revertedFrom := some t.entryId }, ?_, rfl, rfl, rfl, rfl, rfl, rfl, rfl, ?_⟩
  · show (w.auditStore ++ [(logChange w.auditStore
        (revertAuditData documentId schemaName m.collectionName targetVersion opts cur
          (revertedDocState cur ts w.now)) w.now w.nextEntryId).fst]).map
          (fun e2 => if e2.entryId == w.nextEntryId
            then { e2 with revertedFrom := some t.entryId } else e2) =
      w.auditStore ++ [{ (logChange w.auditStore
        (revertAuditData documentId schemaName m.collectionName targetVersion opts cur
          (revertedDocState cur ts w.now)) w.now w.nextEntryId).fst with
        revertedFrom := some t.entryId }]
    rw [List.map_append]
    congr 1
    · apply map_eq_self_of_forall
      intro x hx
      exact if_neg (by simp only [beq_iff_eq]; exact hfresh x hx)
    · have hid : (logChange w.auditStore
          (revertAuditData documentId schemaName m.collectionName targetVersion opts cur
            (revertedDocState cur ts w.now)) w.now w.nextEntryId).fst.entryId =
          w.nextEntryId := rfl
      simp [hid]
  · intro x hx hm2
    have hle := matching_version_le w.auditStore documentId schemaName x hx hm2
    show x.version < getLatestVersion w.auditStore documentId schemaName + 1
    omega

/-- Witness for C5: reverting document `d` of schema `s` to version 1
in the concrete world appends the audited revert entry. -/
theorem revertToVersion_audited_witness :
    (findTargetEntry exWorld "d" "s" 1 = some exEntryA ∧
     exEntryA.canRevert = true ∧
     exEntryA.currentState = some [("title", .vstr "t")] ∧
     findModel exWorld.models "s" = some exModel ∧
     findLiveDoc exModel "d" = some [("_id", .vstr "d"), ("title", .vstr "live"),
       ("_schemaName", .vstr "s")] ∧
     exWorld.applyOk = true ∧ exWorld.saveOk = true ∧
     (∀ x ∈ exWorld.auditStore, x.entryId ≠ exWorld.nextEntryId)) ∧
    (∃ e, (revertToVersion exWorld "d" "s" 1 exOpts).snd.auditStore =
        exWorld.auditStore ++ [e] ∧
      e.operation = "update" ∧
      lookupField e.metadata "isRevert" = some (.vbool true) ∧
      lookupField e.metadata "revertedToVersion" = some (.vnum 1) ∧
      e.revertedFrom = some exEntryA.entryId ∧
      e.previousState = some [("_id", .vstr "d"), ("title", .vstr "live"),
        ("_schemaName", .vstr "s")] ∧
      e.currentState = some (revertedDocState
        [("_id", .vstr "d"), ("title", .vstr "live"), ("_schemaName", .vstr "s")]
        [("title", .vstr "t")] exWorld.now) ∧
      e.version = getLatestVersion exWorld.auditStore "d" "s" + 1 ∧
      ∀ x ∈ exWorld.auditStore,
        (x.documentId == "d" && x.schemaName == "s") = true →
        x.version < e.version) := by
  have hfresh : ∀ x ∈ exWorld.auditStore, x.entryId ≠ exWorld.nextEntryId := by
    intro x hx
    simp only [exWorld, List.mem_cons, List.not_mem_nil, or_false] at hx
    subst hx
    decide
  exact ⟨⟨rfl, rfl, rfl, rfl, rfl, rfl, rfl, hfresh⟩,
    revertToVersion_audited exWorld "d" "s" 1 exOpts exEntryA [("title", .vstr "t")]
      [("_id", .vstr "d"), ("title", .vstr "live"), ("_schemaName", .vstr "s")]
      exModel rfl rfl rfl rfl rfl rfl rfl hfresh⟩

/-- C10 — If the ledger write fails after the target state has been
applied, `revertToVersion` surfaces the error to its caller even though
the live document has already been changed to the target state: the
audit store is unchanged while the document store carries the reverted
state. -/
theorem revertToVersion_throws_after_apply (w : AuditWorld)
    (documentId schemaName : String) (targetVersion : Int) (opts : RevertOptions)
    (t : AuditEntry) (ts cur : State) (m : DynModel)
    (htarget : findTargetEntry w documentId schemaName targetVersion = some t)
    (hcan : t.canRevert = true)
    (hstate : t.currentState = some ts)
    (hmodel : findModel w.models schemaName = some m)
    (hdoc : findLiveDoc m documentId = some cur)
    (happly : w.applyOk = true)
    (hsave : w.saveOk = false) :
    (∃ msg, (revertToVersion w documentId schemaName targetVersion opts).fst =
      .error msg) ∧
    (revertToVersion w documentId schemaName targetVersion opts).snd.auditStore =
      w.auditStore ∧
    getDoc (revertToVersion w documentId schemaName targetVersion opts).snd.models
      schemaName documentId = some (revertedDocState cur ts w.now) := by
  have heq := revertToVersion_savefail_eq opts htarget hcan hstate hmodel hdoc happly hsave
  rw [heq]
  exact ⟨⟨_, rfl⟩, rfl, getDoc_setDoc hmodel hdoc⟩

/-- Witness for C10: in the concrete world with the ledger save
failing, reverting to version 1 errors while the live document has been
rewritten to the version-1 state. -/
theorem revertToVersion_throws_after_apply_witness :
    (findTargetEntry exWorldSaveFail "d" "s" 1 = some exEntryA ∧
     exEntryA.canRevert = true ∧
     exEntryA.currentState = some [("title", .vstr "t")] ∧
     findModel exWorldSaveFail.models "s" = some exModel ∧
     findLiveDoc exModel "d" = some [("_id", .vstr "d"), ("title", .vstr "live"),
       ("_schemaName", .vstr "s")] ∧
     exWorldSaveFail.applyOk = true ∧ exWorldSaveFail.saveOk = false) ∧
    ((∃ msg, (revertToVersion exWorldSaveFail "d" "s" 1 exOpts).fst = .error msg) ∧
     (revertToVersion exWorldSaveFail "d" "s" 1 exOpts).snd.auditStore =
       exWorldSaveFail.auditStore ∧
     getDoc (revertToVersion exWorldSaveFail "d" "s" 1 exOpts).snd.models "s" "d" =
       some (revertedDocState
         [("_id", .vstr "d"), ("title", .vstr "live"), ("_schemaName", .vstr "s")]
         [("title", .vstr "t")] exWorldSaveFail.now)) :=
  ⟨⟨rfl, rfl, rfl, rfl, rfl, rfl, rfl⟩,
    revertToVersion_throws_after_apply exWorldSaveFail "d" "s" 1 exOpts exEntryA
      [("title", .vstr "t")]
      [("_id", .vstr "d"), ("title", .vstr "live"), ("_schemaName", .vstr "s")]
      exModel rfl rfl rfl rfl rfl rfl rfl⟩

/-! ## CRUD call sites and audit-failure isolation -/

/-- C7 — A ledger-write failure does not fail the business operation:
with the pre-steps succeeding and the audit save failing,
`createRecord` still returns the created record, `updateRecord` the
updated record and `deleteRecord` `true`; and each operation's returned
value is the same as with any other audit-save outcome (the failure is
caught at the call site). -/
theorem crud_returns_success_despite_audit_failure (w : CrudWorld) (b : Bool)
    (schemaName recordId : String) (data updateData : State) (ctx : ActorContext)
    (model : DynModel) (prev : State)
    (hsch : w.schemaNames.contains schemaName = true)
    (hval : w.validateOk data = true)
    (hvalu : w.validateOk updateData = true)
    (hmodel : findModel w.models schemaName = some model)
    (hdoc : (model.docs.find? (docMatches recordId schemaName)).map Prod.snd = some prev)
    (hsave : w.auditSaveOk = false) :
    (createRecord w schemaName data ctx).fst =
      .ok (setField (setField data "_schemaName" (.vstr schemaName)) "_id"
        (.vstr ("doc" ++ toString w.nextDocId))) ∧
    (updateRecord w schemaName recordId updateData ctx).fst =
      .ok (applyUpdate prev (updateData ++ [("updatedAt", .vnum w.now)])) ∧
    (deleteRecord w schemaName recordId ctx).fst = .ok true ∧
    (createRecord w schemaName data ctx).fst =
      (createRecord { w with auditSaveOk := b } schemaName data ctx).fst ∧
    (updateRecord w schemaName recordId updateData ctx).fst =
      (updateRecord { w with auditSaveOk := b } schemaName recordId updateData ctx).fst ∧
    (deleteRecord w schemaName recordId ctx).fst =
      (deleteRecord { w with auditSaveOk := b } schemaName recordId ctx).fst := by
  refine ⟨?_, ?_, ?_, ?_, ?_, ?_⟩ <;>
    simp only [createRecord, updateRecord, deleteRecord, hsch, hval, hvalu, hmodel, hdoc,
      Bool.not_true, Bool.false_eq_true, if_false]

/-- Witness for C7: in the concrete world with the ledger write
failing, create, update and delete all succeed with their normal
results. -/
theorem crud_returns_success_despite_audit_failure_witness :
    (exCrudWorld.schemaNames.contains "s" = true ∧
     exCrudWorld.validateOk [("title", .vstr "n")] = true ∧
     exCrudWorld.validateOk [("title", .vstr "m")] = true ∧
     findModel exCrudWorld.models "s" = some exModel ∧
     (exModel.docs.find? (docMatches "d" "s")).map Prod.snd =
       some [("_id", .vstr "d"), ("title", .vstr "live"), ("_schemaName", .vstr "s")] ∧
     exCrudWorld.auditSaveOk = false) ∧
    ((createRecord exCrudWorld "s" [("title", .vstr "n")] exOpts.actor).fst =
      .ok (setField (setField [("title", .vstr "n")] "_schemaName" (.vstr "s")) "_id"
        (.vstr ("doc" ++ toString exCrudWorld.nextDocId))) ∧
     (updateRecord exCrudWorld "s" "d" [("title", .vstr "m")] exOpts.actor).fst =
      .ok (applyUpdate
        [("_id", .vstr "d"), ("title", .vstr "live"), ("_schemaName", .vstr "s")]
        ([("title", .vstr "m")] ++ [("updatedAt", .vnum exCrudWorld.now)])) ∧
     (deleteRecord exCrudWorld "s" "d" exOpts.actor).fst = .ok true ∧
     (createRecord exCrudWorld "s" [("title", .vstr "n")] exOpts.actor).fst =
      (createRecord { exCrudWorld with auditSaveOk := true } "s"
        [("title", .vstr "n")] exOpts.actor).fst ∧
     (updateRecord exCrudWorld "s" "d" [("title", .vstr "m")] exOpts.actor).fst =
      (updateRecord { exCrudWorld with auditSaveOk := true } "s" "d"
        [("title", .vstr "m")] exOpts.actor).fst ∧
     (deleteRecord exCrudWorld "s" "d" exOpts.actor).fst =
      (deleteRecord { exCrudWorld with auditSaveOk := true } "s" "d"
        exOpts.actor).fst) :=
  ⟨⟨rfl, rfl, rfl, rfl, rfl, rfl⟩,
    crud_returns_success_despite_audit_failure exCrudWorld true "s" "d"
      [("title", .vstr "n")] [("title", .vstr "m")] exOpts.actor exModel
      [("_id", .vstr "d"), ("title", .vstr "live"), ("_schemaName", .vstr "s")]
      rfl rfl rfl rfl rfl rfl⟩

/-! ## Version-number validation at the controllers -/

/-- C8 counterexample — the claim says every query/compare/revert
request with a non-positive or non-integer version value is rejected
before any Ledger operation. But `compareDocumentVersions` checks only
`isNaN`, so the non-positive version `0` reaches the Ledger (the trace
records both `getDocumentAtVersion` calls); and `parseInt` truncates
the non-integer value `2.5` to `2`, which reaches the Ledger through
the query endpoint and even answers successfully. -/
theorem version_validation_counterexample :
    (controllerCompareDocumentVersions [] "s" "r" "0" "1").snd = [0, 1] ∧
    (controllerGetDocumentAtVersion [exEntryB] "s" "d" "2.5").snd = [2] := by
  exact ⟨rfl, rfl⟩

/-- C8 (amended) — `getDocumentAtVersion` and `revertDocumentToVersion`
(and the `validateVersionNumber` middleware) reject a version value
that parses to `NaN` or below 1 with a 400 validation error before any
Ledger call, and every version they pass to the Ledger is a positive
integer; `compareDocumentVersions`, however, rejects only values that
parse to `NaN`, so non-positive parsed versions reach the Ledger there,
and a non-integer numeric string is truncated by `parseInt` rather than
rejected on every endpoint. -/
theorem version_validation_amended :
    (∀ (store : AuditStore) (schemaName recordId versionParam : String) (v : Int),
      parseIntJS versionParam = some v → v < 1 →
      controllerGetDocumentAtVersion store schemaName recordId versionParam =
        (.failure "Invalid version number" 400, [])) ∧
    (∀ (store : AuditStore) (schemaName recordId versionParam : String),
      parseIntJS versionParam = none →
      controllerGetDocumentAtVersion store schemaName recordId versionParam =
        (.failure "Invalid version number" 400, [])) ∧
    (∀ (store : AuditStore) (schemaName recordId versionParam : String) (v : Int),
      v ∈ (controllerGetDocumentAtVersion store schemaName recordId versionParam).snd →
      1 ≤ v) ∧
    (∀ (w : AuditWorld) (schemaName recordId versionParam : String)
        (opts : RevertOptions) (v : Int),
      parseIntJS versionParam = some v → v < 1 →
      controllerRevertDocumentToVersion w schemaName recordId versionParam opts =
        ((.failure "Invalid version number" 400, []), w)) ∧
    (∀ (w : AuditWorld) (schemaName recordId versionParam : String)
        (opts : RevertOptions),
      parseIntJS versionParam = none →
      controllerRevertDocumentToVersion w schemaName recordId versionParam opts =
        ((.failure "Invalid version number" 400, []), w)) ∧
    (∀ (w : AuditWorld) (schemaName recordId versionParam : String)
        (opts : RevertOptions) (v : Int),
      v ∈ (controllerRevertDocumentToVersion w schemaName recordId versionParam opts).fst.snd →
      1 ≤ v) ∧
    (∀ (store : AuditStore) (schemaName recordId fromV toV : String),
      fromV.isEmpty = false → toV.isEmpty = false →
      (parseIntJS fromV = none ∨ parseIntJS toV = none) →
      controllerCompareDocumentVersions store schemaName recordId fromV toV =
        (.failure "Version numbers must be integers" 400, [])) ∧
    (∀ (versionParam : String) (v : Int),
      validateVersionNumber versionParam = .ok v → 1 ≤ v) := by
  refine ⟨?_, ?_, ?_, ?_, ?_, ?_, ?_, ?_⟩
  · intro store schemaName recordId versionParam v hparse hlt
    unfold controllerGetDocumentAtVersion
    rw [hparse]
    simp only [if_pos hlt]
  · intro store schemaName recordId versionParam hparse
    unfold controllerGetDocumentAtVersion
    rw [hparse]
  · intro store schemaName recordId versionParam v hv
    unfold controllerGetDocumentAtVersion at hv
    cases hparse : parseIntJS versionParam with
    | none => rw [hparse] at hv; simp at hv
    | some v0 =>
      rw [hparse] at hv
      simp only [] at hv
      by_cases hlt : v0 < 1
      · rw [if_pos hlt] at hv; simp at hv
      · rw [if_neg hlt] at hv
        cases hfound : getDocumentAtVersion store recordId schemaName v0 with
        | none =>
          rw [hfound] at hv
          simp at hv
          omega
        | some doc =>
          rw [hfound] at hv
          simp at hv
          omega
  · intro w schemaName recordId versionParam opts v hparse hlt
    unfold controllerRevertDocumentToVersion
    rw [hparse]
    simp only [if_pos hlt]
  · intro w schemaName recordId versionParam opts hparse
    unfold controllerRevertDocumentToVersion
    rw [hparse]
  · intro w schemaName recordId versionParam opts v hv
    unfold controllerRevertDocumentToVersion at hv
    cases hparse : parseIntJS versionParam with
    | none => rw [hparse] at hv; simp at hv
    | some v0 =>
      rw [hparse] at hv
      simp only [] at hv
      by_cases hlt : v0 < 1
      · rw [if_pos hlt] at hv; simp at hv
      · rw [if_neg hlt] at hv
        cases hrev : revertToVersion w recordId schemaName v0 opts with
        | mk res w1 =>
          rw [hrev] at hv
          cases res <;> simp at hv <;> omega
  · intro store schemaName recordId fromV toV hfe hte hdisj
    unfold controllerCompareDocumentVersions
    rw [hfe, hte]
    simp only [Bool.or_self, Bool.false_eq_true, if_false]
    rcases hdisj with hn | hn
    · rw [hn]
    · rw [hn]
      cases parseIntJS fromV <;> rfl
  · intro versionParam v hok
    unfold validateVersionNumber at hok
    by_cases hemp : versionParam.isEmpty
    · rw [if_pos hemp] at hok; cases hok
    · rw [if_neg hemp] at hok
      cases hparse : parseIntJS versionParam with
      | none => rw [hparse] at hok; cases hok
      | some v0 =>
        rw [hparse] at hok
        simp only [] at hok
        by_cases hlt : v0 < 1
        · rw [if_pos hlt] at hok; cases hok
        · rw [if_neg hlt] at hok
          cases hok
          omega

/-- Witness for C8 (amended): the query endpoint rejects version `0`
with a 400 validation error and an empty Ledger trace. -/
theorem version_validation_amended_witness :
    (parseIntJS "0" = some 0 ∧ (0 : Int) < 1) ∧
    controllerGetDocumentAtVersion [] "s" "r" "0" =
      (.failure "Invalid version number" 400, []) :=
  ⟨⟨rfl, by omega⟩, version_validation_amended.1 [] "s" "r" "0" 0 rfl (by omega)⟩

/-! ## Lemmas about change propagation -/

theorem lookupField_setField_self : ∀ (s : State) (k : String) (v : Value),
    lookupField (setField s k v) k = some v := by
  intro s k v
  induction s with
  | nil => simp [setField, lookupField]
  | cons p rest ih =>
    by_cases hp : p.fst == k
    · unfold setField
      rw [if_pos hp]
      unfold lookupField
      rw [@List.find?_cons_of_pos _ (fun q => q.fst == k) (p.fst, v) rest hp]
      rfl
    · unfold setField
      rw [if_neg hp]
      unfold lookupField
      rw [@List.find?_cons_of_neg _ (fun q => q.fst == k) p (setField rest k v) hp]
      exact ih

theorem lookupField_setField_ne : ∀ (s : State) (k k2 : String) (v : Value),
    k2 ≠ k → lookupField (setField s k v) k2 = lookupField s k2 := by
  intro s k k2 v hne
  have hkk2 : ¬((k == k2) = true) := by
    rw [beq_iff_eq]
    exact fun h => hne h.symm
  induction s with
  | nil =>
    unfold setField lookupField
    rw [@List.find?_cons_of_neg _ (fun q => q.fst == k2) (k, v) [] hkk2]
  | cons p rest ih =>
    by_cases hp : (p.fst == k) = true
    · unfold setField
      rw [if_pos hp]
      rw [beq_iff_eq] at hp
      subst hp
      unfold lookupField
      rw [@List.find?_cons_of_neg _ (fun q => q.fst == k2) (p.fst, v) rest hkk2]
      rw [@List.find?_cons_of_neg _ (fun q => q.fst == k2) p rest hkk2]
    · unfold setField
      rw [if_neg hp]
      by_cases hq : (p.fst == k2) = true
      · unfold lookupField
        rw [@List.find?_cons_of_pos _ (fun q => q.fst == k2) p (setField rest k v) hq]
        rw [@List.find?_cons_of_pos _ (fun q => q.fst == k2) p rest hq]
      · unfold lookupField
        rw [@List.find?_cons_of_neg _ (fun q => q.fst == k2) p (setField rest k v) hq]
        rw [@List.find?_cons_of_neg _ (fun q => q.fst == k2) p rest hq]
        exact ih

theorem string_suffix_ne (f : String) : f ++ "_lastUpdated" ≠ f ++ "_version" := by
  intro h
  have hlen := congrArg String.length h
  rw [String.length_append, String.length_append] at hlen
  have h1 : "_lastUpdated".length = 12 := rfl
  have h2 : "_version".length = 8 := rfl
  omega

theorem find?_fst_map {β : Type} (t : String × β → String × β)
    (hfst : ∀ p, (t p).fst = p.fst) (s2 : String) :
    ∀ l : List (String × β),
      (l.map t).find? (fun p => p.fst == s2) = (l.find? (fun p => p.fst == s2)).map t := by
  intro l
  induction l with
  | nil => rfl
  | cons p ps ih =>
    rw [List.map_cons]
    by_cases hq : (p.fst == s2) = true
    · rw [@List.find?_cons_of_pos _ (fun q => q.fst == s2) (t p) (ps.map t)
        (by show ((t p).fst == s2) = true; rw [hfst p]; exact hq)]
      rw [@List.find?_cons_of_pos _ (fun q => q.fst == s2) p ps hq]
      rfl
    · rw [@List.find?_cons_of_neg _ (fun q => q.fst == s2) (t p) (ps.map t)
        (by show ¬(((t p).fst == s2) = true); rw [hfst p]; exact hq)]
      rw [@List.find?_cons_of_neg _ (fun q => q.fst == s2) p ps hq]
      exact ih

theorem setDoc_fst_preserved (s i : String) (st : State) :
    ∀ p : String × DynModel,
      ((fun p => if p.fst == s then
          (p.fst, { p.snd with
            docs := p.snd.docs.map (fun q => if q.fst == i then (q.fst, st) else q) })
        else p) p).fst = p.fst := by
  intro p
  simp only []
  by_cases hc : (p.fst == s) = true
  · rw [if_pos hc]
  · rw [if_neg hc]

theorem findModel_setDoc_ne {ms : Models} {s i : String} {st : State} {s2 : String}
    (hne : s2 ≠ s) : findModel (setDoc ms s i st) s2 = findModel ms s2 := by
  unfold findModel setDoc
  rw [find?_fst_map _ (setDoc_fst_preserved s i st) s2 ms]
  cases hf : ms.find? (fun p => p.fst == s2) with
  | none => rfl
  | some p =>
    have hp2 := List.find?_some hf
    have hps : ¬((p.fst == s) = true) := by
      rw [beq_iff_eq] at hp2 ⊢
      rw [hp2]
      exact fun h => hne h
    simp only [Option.map_map, Option.map]
    rw [if_neg hps]

theorem findModel_setDoc_none {ms : Models} {s i : String} {st : State}
    (hnone : findModel ms s = none) : findModel (setDoc ms s i st) s = none := by
  unfold findModel setDoc at *
  rw [find?_fst_map _ (setDoc_fst_preserved s i st) s ms]
  cases hf : ms.find? (fun p => p.fst == s) with
  | none => rfl
  | some p => rw [hf] at hnone; cases hnone

theorem docsLookup_map_ne {docs : List (String × State)} {i i2 : String} {st : State}
    (hne : i2 ≠ i) :
    ((docs.map (fun q => if q.fst == i then (q.fst, st) else q)).find?
        (fun q => q.fst == i2)).map Prod.snd =
      (docs.find? (fun q => q.fst == i2)).map Prod.snd := by
  have hfst : ∀ q : String × State,
      ((fun q => if q.fst == i then (q.fst, st) else q) q).fst = q.fst := by
    intro q
    simp only []
    by_cases hc : (q.fst == i) = true
    · rw [if_pos hc]
    · rw [if_neg hc]
  rw [find?_fst_map _ hfst i2 docs]
  cases hf : docs.find? (fun q => q.fst == i2) with
  | none => rfl
  | some q =>
    have hq2 := List.find?_some hf
    have hqi : ¬((q.fst == i) = true) := by
      rw [beq_iff_eq] at hq2 ⊢
      rw [hq2]
      exact fun h => hne h
    simp only [Option.map_map, Option.map]
    rw [if_neg hqi]

theorem docsLookup_map_self {docs : List (String × State)} {i : String} {st : State} :
    ((docs.map (fun q => if q.fst == i then (q.fst, st) else q)).find?
        (fun q => q.fst == i)).map Prod.snd =
      ((docs.find? (fun q => q.fst == i)).map Prod.snd).map (fun _ => st) := by
  have hfst : ∀ q : String × State,
      ((fun q => if q.fst == i then (q.fst, st) else q) q).fst = q.fst := by
    intro q
    simp only []
    by_cases hc : (q.fst == i) = true
    · rw [if_pos hc]
    · rw [if_neg hc]
  rw [find?_fst_map _ hfst i docs]
  cases hf : docs.find? (fun q => q.fst == i) with
  | none => rfl
  | some q =>
    have hq2 := List.find?_some hf
    simp only [Option.map_map, Option.map]
    rw [if_pos hq2]

theorem getDoc_setDoc_frame {ms : Models} {s i : String} {st : State} {s2 i2 : String}
    (hne : (s2, i2) ≠ (s, i)) :
    getDoc (setDoc ms s i st) s2 i2 = getDoc ms s2 i2 := by
  by_cases hs : s2 = s
  · subst hs
    have hi : i2 ≠ i := by
      intro h
      exact hne (by rw [h])
    cases hm : findModel ms s2 with
    | none =>
      unfold getDoc
      rw [findModel_setDoc_none hm, hm]
    | some m =>
      have h2 : findModel (setDoc ms s2 i st) s2 =
          some { m with
            docs := m.docs.map (fun q => if q.fst == i then (q.fst, st) else q) } :=
        @findModel_map_replace
          (fun dm => { dm with
            docs := dm.docs.map (fun q => if q.fst == i then (q.fst, st) else q) })
          ms s2 m hm
      unfold getDoc
      rw [hm, h2]
      exact docsLookup_map_ne hi
  · unfold getDoc
    rw [findModel_setDoc_ne hs]

theorem isSome_getDoc_setDoc (ms : Models) (s i : String) (st : State) (s2 i2 : String) :
    (getDoc (setDoc ms s i st) s2 i2).isSome = (getDoc ms s2 i2).isSome := by
  by_cases hpair : (s2, i2) = (s, i)
  · obtain ⟨hs, hi⟩ := Prod.mk.injEq .. ▸ hpair
    subst hs; subst hi
    cases hm : findModel ms s2 with
    | none =>
      unfold getDoc
      rw [findModel_setDoc_none hm, hm]
    | some m =>
      have h2 : findModel (setDoc ms s2 i2 st) s2 =
          some { m with
            docs := m.docs.map (fun q => if q.fst == i2 then (q.fst, st) else q) } :=
        @findModel_map_replace
          (fun dm => { dm with
            docs := dm.docs.map (fun q => if q.fst == i2 then (q.fst, st) else q) })
          ms s2 m hm
      unfold getDoc
      rw [hm, h2]
      show (((m.docs.map (fun q => if q.fst == i2 then (q.fst, st) else q)).find?
          (fun q => q.fst == i2)).map Prod.snd).isSome =
        ((m.docs.find? (fun q => q.fst == i2)).map Prod.snd).isSome
      rw [docsLookup_map_self, Option.isSome_map']
  · rw [getDoc_setDoc_frame hpair]

theorem updateDependentRecord_ok {w : PropWorld} {dep : DependentRecord}
    (hf : depFails w dep = false) :
    ∃ cur, getDoc w.models dep.schemaName dep.recordId = some cur ∧
      updateDependentRecord w dep =
        .ok { w with
          models := setDoc w.models dep.schemaName dep.recordId (stampedState dep cur w.now) } := by
  have h1 : (getDoc w.models dep.schemaName dep.recordId).isSome = true := by
    revert hf; unfold depFails
    cases (getDoc w.models dep.schemaName dep.recordId).isSome <;>
      cases w.updateOk dep.schemaName dep.recordId <;> simp
  have h2 : w.updateOk dep.schemaName dep.recordId = true := by
    revert hf; unfold depFails
    cases (getDoc w.models dep.schemaName dep.recordId).isSome <;>
      cases w.updateOk dep.schemaName dep.recordId <;> simp
  unfold getDoc at h1
  cases hm : findModel w.models dep.schemaName with
  | none => rw [hm] at h1; simp at h1
  | some m =>
    rw [hm] at h1
    simp only [] at h1
    cases hd : (m.docs.find? (fun q => q.fst == dep.recordId)).map Prod.snd with
    | none => rw [hd] at h1; simp at h1
    | some cur =>
      refine ⟨cur, ?_, ?_⟩
      · unfold getDoc
        rw [hm]
        exact hd
      · unfold updateDependentRecord
        rw [hm]
        simp only []
        rw [hd]
        simp only []
        rw [h2]
        simp only [if_true]
        rfl

theorem updateDependentRecord_err {w : PropWorld} {dep : DependentRecord}
    (hf : depFails w dep = true) :
    ∃ msg, updateDependentRecord w dep = .error msg := by
  unfold updateDependentRecord
  cases hm : findModel w.models dep.schemaName with
  | none => exact ⟨_, rfl⟩
  | some m =>
    simp only []
    cases hd : (m.docs.find? (fun q => q.fst == dep.recordId)).map Prod.snd with
    | none => exact ⟨_, rfl⟩
    | some cur =>
      simp only []
      have hok : w.updateOk dep.schemaName dep.recordId = false := by
        revert hf
        unfold depFails getDoc
        rw [hm]
        simp only []
        rw [hd]
        simp
      rw [hok]
      simp only [Bool.false_eq_true, if_false]
      exact ⟨_, rfl⟩

theorem depFails_setDoc (w : PropWorld) (s i : String) (st : State) (dep : DependentRecord) :
    depFails { w with models := setDoc w.models s i st } dep = depFails w dep := by
  unfold depFails
  simp only []
  rw [isSome_getDoc_setDoc]

theorem getDoc_some_elim {ms : Models} {s i : String} {cur : State}
    (h : getDoc ms s i = some cur) :
    ∃ m, findModel ms s = some m ∧ findLiveDoc m i = some cur := by
  unfold getDoc at h
  cases hm : findModel ms s with
  | none => rw [hm] at h; cases h
  | some m =>
    rw [hm] at h
    simp only [] at h
    exact ⟨m, rfl, h⟩

theorem propagate_fold_spec :
    ∀ (deps : List DependentRecord) (w0 : PropWorld) (n : Nat) (errs : List PropError),
      ((deps.map depKey).Nodup) →
      ((∀ s i, (∀ dep ∈ deps, depKey dep ≠ (s, i)) →
          getDoc (deps.foldl propagateStep (n, errs, w0)).snd.snd.models s i =
            getDoc w0.models s i) ∧
       (∀ dep ∈ deps, depFails w0 dep = false →
          ∃ cur, getDoc w0.models dep.schemaName dep.recordId = some cur ∧
            getDoc (deps.foldl propagateStep (n, errs, w0)).snd.snd.models
                dep.schemaName dep.recordId = some (stampedState dep cur w0.now)) ∧
       (∀ dep ∈ deps, depFails w0 dep = true →
          ∃ msg, (⟨dep.schemaName, dep.recordId, msg⟩ : PropError) ∈
            (deps.foldl propagateStep (n, errs, w0)).snd.fst) ∧
       (∀ e ∈ errs, e ∈ (deps.foldl propagateStep (n, errs, w0)).snd.fst) ∧
       (deps.foldl propagateStep (n, errs, w0)).snd.snd.now = w0.now) := by
  intro deps
  induction deps with
  | nil =>
    intro w0 n errs _
    refine ⟨fun s i _ => rfl, ?_, ?_, fun e he => he, rfl⟩
    · intro dep hdep; cases hdep
    · intro dep hdep; cases hdep
  | cons dep rest ih =>
    intro w0 n errs hnd
    rw [List.map_cons] at hnd
    have hnd' : ((rest.map depKey).Nodup) := (List.nodup_cons.mp hnd).2
    have hkey : ∀ d2 ∈ rest, depKey d2 ≠ depKey dep := by
      intro d2 h2 hcontra
      have hmem : depKey d2 ∈ rest.map depKey := List.mem_map_of_mem depKey h2
      rw [hcontra] at hmem
      exact (List.nodup_cons.mp hnd).1 hmem
    simp only [List.foldl_cons]
    cases hf : depFails w0 dep with
    | false =>
      obtain ⟨cur, hcur, hupd⟩ := updateDependentRecord_ok hf
      have hstep : propagateStep (n, errs, w0) dep =
          (n + 1, errs, { w0 with
            models := (setDoc w0.models dep.schemaName dep.recordId
              (stampedState dep cur w0.now)) }) := by
        unfold propagateStep
        rw [hupd]
      rw [hstep]
      obtain ⟨IH1, IH2, IH3, IH4, IH5⟩ := ih
        { w0 with models := (setDoc w0.models dep.schemaName dep.recordId
            (stampedState dep cur w0.now)) } (n + 1) errs hnd'
      have hstab : ∀ d2, depFails
          { w0 with models := (setDoc w0.models dep.schemaName dep.recordId
              (stampedState dep cur w0.now)) } d2 = depFails w0 d2 :=
        depFails_setDoc w0 dep.schemaName dep.recordId (stampedState dep cur w0.now)
      refine ⟨?_, ?_, ?_, IH4, IH5⟩
      · intro s i hnone
        rw [IH1 s i (fun d2 h2 => hnone d2 (List.mem_cons_of_mem _ h2))]
        have hne : (s, i) ≠ (dep.schemaName, dep.recordId) := by
          intro h
          exact hnone dep (List.mem_cons_self _ _) h.symm
        exact getDoc_setDoc_frame hne
      · intro d2 hd2 hf2
        rcases List.mem_cons.mp hd2 with rfl | h2
        · refine ⟨cur, hcur, ?_⟩
          have hrest : ∀ x ∈ rest, depKey x ≠ (d2.schemaName, d2.recordId) := hkey
          rw [IH1 _ _ hrest]
          obtain ⟨m, hm, hd⟩ := getDoc_some_elim hcur
          exact getDoc_setDoc hm hd
        · have hf2b : depFails
              { w0 with models := (setDoc w0.models dep.schemaName dep.recordId
                  (stampedState dep cur w0.now)) } d2 = false := by
            rw [hstab]; exact hf2
          obtain ⟨cur2, hcur2, hres2⟩ := IH2 d2 h2 hf2b
          have hframe : getDoc (setDoc w0.models dep.schemaName dep.recordId
              (stampedState dep cur w0.now)) d2.schemaName d2.recordId =
              getDoc w0.models d2.schemaName d2.recordId := by
            apply getDoc_setDoc_frame
            exact hkey d2 h2
          refine ⟨cur2, ?_, hres2⟩
          rw [← hframe]
          exact hcur2
      · intro d2 hd2 hf2
        rcases List.mem_cons.mp hd2 with rfl | h2
        · rw [hf] at hf2; cases hf2
        · have hf2b : depFails
              { w0 with models := (setDoc w0.models dep.schemaName dep.recordId
                  (stampedState dep cur w0.now)) } d2 = true := by
            rw [hstab]; exact hf2
          exact IH3 d2 h2 hf2b
    | true =>
      obtain ⟨msg, hupd⟩ := updateDependentRecord_err hf
      have hstep : propagateStep (n, errs, w0) dep =
          (n, errs ++ [⟨dep.schemaName, dep.recordId, msg⟩], w0) := by
        unfold propagateStep
        rw [hupd]
      rw [hstep]
      obtain ⟨IH1, IH2, IH3, IH4, IH5⟩ := ih w0 n
        (errs ++ [⟨dep.schemaName, dep.recordId, msg⟩]) hnd'
      refine ⟨?_, ?_, ?_, ?_, IH5⟩
      · intro s i hnone
        exact IH1 s i (fun d2 h2 => hnone d2 (List.mem_cons_of_mem _ h2))
      · intro d2 hd2 hf2
        rcases List.mem_cons.mp hd2 with rfl | h2
        · rw [hf] at hf2; cases hf2
        · exact IH2 d2 h2 hf2
      · intro d2 hd2 hf2
        rcases List.mem_cons.mp hd2 with rfl | h2
        · exact ⟨msg, IH4 _ (List.mem_append_right _ (List.mem_cons_self _ _))⟩
        · exact IH3 d2 h2 hf2
      · intro e he
        exact IH4 e (List.mem_append_left _ he)

theorem stampedState_lastUpdated (dep : DependentRecord) (cur : State) (now : Int) :
    lookupField (stampedState dep cur now) (dep.field ++ "_lastUpdated") =
      some (.vnum now) := by
  unfold stampedState applyUpdate
  simp only [List.foldl_cons, List.foldl_nil]
  rw [lookupField_setField_ne _ _ _ _ (string_suffix_ne dep.field)]
  exact lookupField_setField_self _ _ _

theorem stampedState_version (dep : DependentRecord) (cur : State) (now : Int) :
    lookupField (stampedState dep cur now) (dep.field ++ "_version") =
      some (.vnum ((match lookupField cur (dep.field ++ "_version") with
        | some (.vnum n) => n
        | _ => 0) + 1)) := by
  unfold stampedState applyUpdate
  simp only [List.foldl_cons, List.foldl_nil]
  exact lookupField_setField_self _ _ _

/-- C9 — Change propagation. For every dependent found for the changed
record (assuming the found dependents have pairwise distinct storage
keys): when its store update succeeds, the dependent's document is
rewritten to its old state stamped with `<field>_lastUpdated = now` and
`<field>_version` incremented from its old value (default 0); when the
update fails, an error carrying the dependent's schema and id is
collected in `errors[]` while every other dependent is still processed
(the success conjunct holds regardless of other failures); and any
record that is not among the found dependents is left unmodified. -/
theorem propagateChanges_correct (w : PropWorld) (schemaName recordId : String)
    (hnd : ((findDependentRecords w schemaName recordId).map depKey).Nodup) :
    (∀ dep ∈ findDependentRecords w schemaName recordId,
      depFails w dep = false →
      ∃ cur, getDoc w.models dep.schemaName dep.recordId = some cur ∧
        getDoc (propagateChanges w schemaName recordId).snd.models
            dep.schemaName dep.recordId = some (stampedState dep cur w.now) ∧
        lookupField (stampedState dep cur w.now) (dep.field ++ "_lastUpdated") =
          some (.vnum w.now) ∧
        lookupField (stampedState dep cur w.now) (dep.field ++ "_version") =
          some (.vnum ((match lookupField cur (dep.field ++ "_version") with
            | some (.vnum n) => n
            | _ => 0) + 1))) ∧
    (∀ dep ∈ findDependentRecords w schemaName recordId,
      depFails w dep = true →
      ∃ msg, (⟨dep.schemaName, dep.recordId, msg⟩ : PropError) ∈
        (propagateChanges w schemaName recordId).fst.errors) ∧
    (∀ s i,
      (∀ dep ∈ findDependentRecords w schemaName recordId, depKey dep ≠ (s, i)) →
      getDoc (propagateChanges w schemaName recordId).snd.models s i =
        getDoc w.models s i) := by
  obtain ⟨F1, F2, F3, F4, F5⟩ :=
    propagate_fold_spec (findDependentRecords w schemaName recordId) w 0 [] hnd
  refine ⟨?_, ?_, ?_⟩
  · intro dep hdep hf
    obtain ⟨cur, hcur, hres⟩ := F2 dep hdep hf
    exact ⟨cur, hcur, hres, stampedState_lastUpdated dep cur w.now,
      stampedState_version dep cur w.now⟩
  · intro dep hdep hf
    exact F3 dep hdep hf
  · intro s i h
    exact F1 s i h

/-- Witness for C9: in the concrete Category/Product world, products
`p1` and `p2` are found as dependents of category `c1` with distinct
keys, and the theorem applies. -/
theorem propagateChanges_correct_witness :
    ((findDependentRecords exPropWorld "Category" "c1").map depKey).Nodup ∧
    ((∀ dep ∈ findDependentRecords exPropWorld "Category" "c1",
      depFails exPropWorld dep = false →
      ∃ cur, getDoc exPropWorld.models dep.schemaName dep.recordId = some cur ∧
        getDoc (propagateChanges exPropWorld "Category" "c1").snd.models
            dep.schemaName dep.recordId = some (stampedState dep cur exPropWorld.now) ∧
        lookupField (stampedState dep cur exPropWorld.now) (dep.field ++ "_lastUpdated") =
          some (.vnum exPropWorld.now) ∧
        lookupField (stampedState dep cur exPropWorld.now) (dep.field ++ "_version") =
          some (.vnum ((match lookupField cur (dep.field ++ "_version") with
            | some (.vnum n) => n
            | _ => 0) + 1))) ∧
    (∀ dep ∈ findDependentRecords exPropWorld "Category" "c1",
      depFails exPropWorld dep = true →
      ∃ msg, (⟨dep.schemaName, dep.recordId, msg⟩ : PropError) ∈
        (propagateChanges exPropWorld "Category" "c1").fst.errors) ∧
    (∀ s i,
      (∀ dep ∈ findDependentRecords exPropWorld "Category" "c1", depKey dep ≠ (s, i)) →
      getDoc (propagateChanges exPropWorld "Category" "c1").snd.models s i =
        getDoc exPropWorld.models s i)) :=
  ⟨by decide, propagateChanges_correct exPropWorld "Category" "c1" (by decide)⟩
